import Mathlib

/-!
# LetsPlayServer: command dispatch, registries and broadcast fan-out

A shallow embedding of `src/LetsPlayServer.cpp`.

* A `std::string` is a Lean `String`; every `Char` stands for one `char` of the
  C++ string, so `size()` is `String.length` and the printable range is
  `0x20 .. 0x7E` on `Char.toNat`.
* `m_Users` is the list of registry entries in iteration order, `m_Emus` the list
  of key/pointer pairs (a null pointer is `none`).
* A weak user reference (`LetsPlayUserHdl`) is the registry key of the entry that
  owns the user; it resolves (`lock`) while that entry is in the registry.
* Every effect of the dispatcher on the outside world (a `server->send`, a
  `logger.log`, a call through an emulator proxy, a spawned thread) is recorded
  as an `Event`, in program order.
* Undefined behaviour and a guest loop that never finds a free name are explicit
  `Fault`s.
-/

namespace LetsPlay

/-! ## Data model -/

/-- The values `LetsPlayProtocol::encode` accepts after the command name. -/
inductive Arg where
  | str (s : String)
  | bool (b : Bool)
  | uint (n : Nat)
  deriving DecidableEq, Repr

/-- The command kinds of `kCommandType`. -/
inductive kCommandType where
  | List | Chat | Username | Button | Connect | Turn | AddEmu | Admin
  | Shutdown | Pong | RemoveEmu | StopEmu | Config | Unknown
  deriving DecidableEq, Repr

/-- The shapes of an `nlohmann::json` value the server tells apart. -/
inductive JsonValue where
  | null
  | boolean (b : Bool)
  | number_unsigned (n : Nat)
  | number_integer (i : Int)
  | number_float
  | string (s : String)
  | structured
  deriving DecidableEq, Repr

/-- The `serverConfig` object of `config.config`; a missing key reads as `null`. -/
structure ServerConfig where
  maxMessageSize : JsonValue
  maxUsernameLength : JsonValue
  minUsernameLength : JsonValue
  jpegQuality : JsonValue
  salt : JsonValue
  adminHash : JsonValue
  deriving DecidableEq, Repr

/-- The table `LetsPlayConfig::defaultConfig["serverConfig"]`, which is not part of
this source file: its entries, read at the types the server converts them to. -/
structure DefaultConfig where
  maxMessageSize : Nat
  maxUsernameLength : Nat
  minUsernameLength : Nat
  jpegQuality : Nat
  salt : String
  adminHash : String
  deriving DecidableEq, Repr

/-- The collaborators the server calls but does not define. -/
structure Env where
  /-- `LetsPlayProtocol::encode` -/
  encode : List Arg → String
  /-- `LetsPlayProtocol::decode` -/
  decode : String → List String
  /-- `md5` -/
  md5 : String → String
  /-- `LetsPlayConfig::defaultConfig` -/
  defaultConfig : DefaultConfig

/-- The fields of `LetsPlayUser` the server reads and writes. -/
structure LetsPlayUser where
  uuid : String
  username : String
  connectedEmu : String
  hasAdmin : Bool
  adminAttempts : Nat
  hasTurn : Bool
  requestedTurn : Bool
  connected : Bool
  lastPong : Nat
  ip : String
  deriving DecidableEq, Repr

/-- One entry of `m_Users`: the connection handle (the key), whether that handle
has expired, and the user it owns. -/
structure UserEntry where
  hdl : Nat
  expired : Bool
  user : LetsPlayUser
  deriving DecidableEq, Repr

/-- A `Command` of the work queue. `hdl` is `none` for a default-constructed
`connection_hdl`, `user_hdl` is `none` for an empty weak reference. -/
structure Command where
  type : kCommandType
  params : List String
  hdl : Option Nat
  emuID : String
  user_hdl : Option Nat
  deriving DecidableEq, Repr

/-- The opcode of a websocket frame. -/
inductive Opcode where
  | text | binary
  deriving DecidableEq, Repr

/-- The effects of the server on its collaborators. -/
inductive Event where
  /-- `server->send(hdl, data, op, ec)` -/
  | send (hdl : Option Nat) (data : String) (op : Opcode)
  /-- `logger.log(parts...)` -/
  | log (parts : List String)
  /-- `emu->userConnected(user_hdl)` -/
  | userConnected (emu : Nat) (user_hdl : Option Nat)
  /-- `emu->userDisconnected(user_hdl)` -/
  | userDisconnected (emu : Nat) (user_hdl : Option Nat)
  /-- `emu->addTurnRequest(user_hdl)` -/
  | addTurnRequest (emu : Nat) (user_hdl : Option Nat)
  /-- `emu->joypad->updateValue(device, id, value)` -/
  | updateValue (emu : Nat) (device : Nat) (id : Int) (value : Int)
  /-- `std::thread(EmulatorController::Run, corePath, romPath, this, id)` -/
  | spawnEmulator (corePath romPath id : String)
  /-- `m_QueueNotifier.notify_one()` -/
  | notifyQueue
  /-- `server->stop_listening(err)` -/
  | stopListening
  /-- `m_QueueThread.join()` -/
  | joinQueueThread
  /-- `server->close(hdl, websocketpp::close::status::normal, reason, err)` -/
  | close (hdl : Nat) (reason : String)
  deriving DecidableEq, Repr

/-- The ways a handler can fail to run to completion. -/
inductive Fault where
  /-- `front()` of an empty `std::string` -/
  | frontOfEmptyString
  /-- a call through a null `EmulatorControllerProxy*` -/
  | nullEmulator
  /-- the `do ... while (UsernameTaken(...))` loop of `GiveGuest` used up every
  random draw without finding a free name -/
  | guestLoopDiverges
  deriving DecidableEq, Repr

/-- The state of a `LetsPlayServer` the dispatcher works on. `rnd` holds the
values the coming calls of `rnd::nextInt()` return, `now` the clock reading. -/
structure Server where
  m_Users : List UserEntry
  m_Emus : List (String × Option Nat)
  config : ServerConfig
  rnd : List Nat
  now : Nat
  deriving DecidableEq, Repr

/-- The result of running a handler: the new state and the events it issued. -/
abbrev Outcome := Except Fault (Server × List Event)

/-! ## Registries -/

/-- `user_hdl.lock()`: the user a weak reference resolves to, if any. -/
def lock (users : List UserEntry) : Option Nat → Option LetsPlayUser
  | none => none
  | some k => (users.find? (fun e => e.hdl == k)).map (fun e => e.user)

/-- A write through the `shared_ptr` obtained from `lock`: the user owned by the
entry under key `k` is replaced by `f user`. -/
def modifyUser (k : Nat) (f : LetsPlayUser → LetsPlayUser) : List UserEntry → List UserEntry
  | [] => []
  | e :: es => if e.hdl = k then { e with user := f e.user } :: es else e :: modifyUser k f es

/-- A write through a weak reference that has been locked before. -/
def modifyUserHdl (h : Option Nat) (f : LetsPlayUser → LetsPlayUser)
    (users : List UserEntry) : List UserEntry :=
  match h with
  | none => users
  | some k => modifyUser k f users

/-- `m_Emus.find(id) != m_Emus.end()` -/
def emuFound (emus : List (String × Option Nat)) (id : String) : Bool :=
  (emus.lookup id).isSome

/-- `m_Emus[id]` with the semantics of `std::map::operator[]`: a key that is
absent is inserted with a null pointer. -/
def emusIndex (emus : List (String × Option Nat)) (id : String) :
    List (String × Option Nat) × Option Nat :=
  match emus.lookup id with
  | some p => (emus, p)
  | none => (emus ++ [(id, none)], none)

/-! ## String helpers -/

/-- `LetsPlayServer::isAsciiStr` -/
def isAsciiStr (str : String) : Bool :=
  str.data.all (fun c => decide (32 ≤ c.toNat) && decide (c.toNat ≤ 126))

/-- The character class `[\da-f]` of the regular expression in `escapedSize`. -/
def isHexLower (c : Char) : Bool :=
  (decide (48 ≤ c.toNat) && decide (c.toNat ≤ 57)) || (decide (97 ≤ c.toNat) && decide (c.toNat ≤ 102))

/-- Whether the first `n` characters exist and are all in `[\da-f]`. -/
def hexRun : Nat → List Char → Bool
  | 0, _ => true
  | _ + 1, [] => false
  | n + 1, c :: cs => isHexLower c && hexRun n cs

/-- The length of the match of
`(\\x[\da-f]{2}|\\u[\da-f]{4}|\\u\{1[\da-f]{4}\})` at the start of the input. -/
def escapeLen : List Char → Option Nat
  | [] => none
  | [_] => none
  | b :: k :: rest =>
    if b.toNat = 92 then
      if k = 'x' then
        if hexRun 2 rest then some 4 else none
      else if k = 'u' then
        if hexRun 4 rest then some 6
        else
          match rest with
          | o :: i :: t =>
            if o.toNat = 123 && i = '1' && hexRun 4 t && (t.drop 4).head? == some (Char.ofNat 125)
            then some 9 else none
          | _ => none
      else none
    else none

/-- The size of `std::regex_replace(str, re, "X")`: `skip` characters of the
current match are still to be passed over. -/
def escapedSizeAux : Nat → List Char → Nat
  | _, [] => 0
  | skip + 1, _ :: cs => escapedSizeAux skip cs
  | 0, c :: cs =>
    match escapeLen (c :: cs) with
    | some n => 1 + escapedSizeAux (n - 1) cs
    | none => 1 + escapedSizeAux 0 cs

/-- `LetsPlayServer::escapedSize` -/
def escapedSize (str : String) : Nat :=
  escapedSizeAux 0 str.data

/-- `str.find("  ") != std::string::npos` -/
def findDoubleSpace : List Char → Bool
  | [] => false
  | [_] => false
  | a :: b :: cs => (a == ' ' && b == ' ') || findDoubleSpace (b :: cs)

/-- The content checks of the Username handler,
`front() == ' ' || back() == ' ' || !isAsciiStr(s) || s.find("  ") != npos`;
`front()` and `back()` of an empty string are undefined. -/
def contentRejected (s : String) : Except Fault Bool :=
  match s.data with
  | [] => .error .frontOfEmptyString
  | a :: rest =>
    .ok (a == ' ' || rest.getLastD a == ' ' || !isAsciiStr s || findDoubleSpace s.data)

/-- A value of an unsigned configuration key, or the default when the key does
not hold an unsigned number. -/
def unsignedOr (j : JsonValue) (dflt : Nat) : Nat :=
  match j with
  | .number_unsigned n => n
  | _ => dflt

def maxMessageSize (env : Env) (s : Server) : Nat :=
  unsignedOr s.config.maxMessageSize env.defaultConfig.maxMessageSize

def maxUsernameLen (env : Env) (s : Server) : Nat :=
  unsignedOr s.config.maxUsernameLength env.defaultConfig.maxUsernameLength

def minUsernameLen (env : Env) (s : Server) : Nat :=
  unsignedOr s.config.minUsernameLength env.defaultConfig.minUsernameLength

/-- How the logger prints a `bool`. -/
def showBool (b : Bool) : String := if b then "1" else "0"

/-! ## Broadcast engine -/

/-- `LetsPlayServer::BroadcastAll` -/
def BroadcastAll (users : List UserEntry) (data : String) (op : Opcode) : List Event :=
  (users.filter (fun e => e.user.username != "" && e.user.connected && !e.expired)).map
    (fun e => Event.send (some e.hdl) data op)

/-- `LetsPlayServer::BroadcastOne` -/
def BroadcastOne (data : String) (hdl : Option Nat) : List Event :=
  [Event.send hdl data Opcode.text]

/-- `LetsPlayServer::BroadcastToEmu` -/
def BroadcastToEmu (users : List UserEntry) (id : String) (message : String) (op : Opcode) :
    List Event :=
  (users.filter (fun e => e.user.connectedEmu == id && e.user.username != "" && e.user.connected
      && !e.expired)).map
    (fun e => Event.send (some e.hdl) message op)

/-- `LetsPlayServer::UsernameTaken` -/
def UsernameTaken (users : List UserEntry) (username : String) (uuid : String) : Bool :=
  users.any (fun e => e.user.uuid != uuid && e.user.username == username && e.user.connected
    && !e.expired)

/-- The candidate `"guest" + std::to_string(rnd::nextInt() % 100000)`. -/
def guestName (r : Nat) : String := "guest" ++ toString (r % 100000)

/-- The loop of `GiveGuest`: draws until the candidate is not taken. Returns the
name and the draws that are left. -/
def pickGuest (users : List UserEntry) (uuid : String) : List Nat → Option (String × List Nat)
  | [] => none
  | r :: rs =>
    if UsernameTaken users (guestName r) uuid then pickGuest users uuid rs
    else some (guestName r, rs)

/-- `LetsPlayServer::GiveGuest` -/
def GiveGuest (env : Env) (s : Server) (hdl : Option Nat) (user_hdl : Option Nat) : Outcome :=
  match lock s.m_Users user_hdl with
  | none => .ok (s, [])
  | some user =>
    match pickGuest s.m_Users user.uuid s.rnd with
    | none => .error .guestLoopDiverges
    | some (validUsername, rest) =>
      let oldUsername := user.username
      .ok ({ s with
              m_Users := modifyUserHdl user_hdl (fun u => { u with username := validUsername })
                s.m_Users,
              rnd := rest },
           BroadcastOne (env.encode [.str "username", .str oldUsername, .str validUsername]) hdl
             ++ [Event.log [user.uuid, " (", oldUsername, ") given new username '",
                   validUsername, "'"]])

/-! ## Reading a `std::int16_t` from a `std::stringstream` -/

/-- `std::isspace` in the "C" locale. -/
def isSpaceChar (c : Char) : Bool :=
  c.toNat = 32 || (decide (9 ≤ c.toNat) && decide (c.toNat ≤ 13))

/-- The value of a run of decimal digits, most significant first. -/
def digitsValue (acc : Nat) : List Char → Nat
  | [] => acc
  | c :: cs => digitsValue (acc * 10 + (c.toNat - 48)) cs

/-- The optional sign in front of a numeral: whether it is a minus, and the
rest of the input. -/
def readSign : List Char → Bool × List Char
  | [] => (false, [])
  | c :: cs => if c = '-' then (true, cs) else if c = '+' then (false, cs) else (false, c :: cs)

/-- The signed number the extraction reads: leading white space is skipped, then
an optional sign and the longest run of decimal digits are read. -/
def signedValue (str : String) : Int :=
  let signed := readSign (str.data.dropWhile isSpaceChar)
  let magnitude : Int := digitsValue 0 (signed.2.takeWhile Char.isDigit)
  if signed.1 then -magnitude else magnitude

/-- `std::stringstream ss{str}; ss >> n;` for a `std::int16_t n`, and the test
`if (!ss)`: the extraction fails when there is no digit after the optional sign
or the number does not fit in 16 bits. -/
def parseInt16 (str : String) : Option Int :=
  if (readSign (str.data.dropWhile isSpaceChar)).2.takeWhile Char.isDigit = [] then none
  else if signedValue str < -32768 ∨ 32767 < signedValue str then none
  else some (signedValue str)

/-- `RETRO_DEVICE_INDEX_ANALOG_LEFT` of libretro.h -/
def RETRO_DEVICE_INDEX_ANALOG_LEFT : Nat := 0
/-- `RETRO_DEVICE_INDEX_ANALOG_RIGHT` of libretro.h -/
def RETRO_DEVICE_INDEX_ANALOG_RIGHT : Nat := 1
/-- `RETRO_DEVICE_INDEX_ANALOG_BUTTON` of libretro.h -/
def RETRO_DEVICE_INDEX_ANALOG_BUTTON : Nat := 2

/-! ## The command dispatcher: the cases of the switch in `QueueThread` -/

/-- `case kCommandType::Chat` -/
def chatCase (env : Env) (s : Server) (command : Command) : Outcome :=
  match command.params with
  | [msg] =>
    match lock s.m_Users command.user_hdl with
    | none => .ok (s, [])
    | some user =>
      if user.username == "" then .ok (s, [])
      else if !isAsciiStr msg then .ok (s, [])
      else if escapedSize msg > maxMessageSize env s then .ok (s, [])
      else
        .ok (s, BroadcastAll s.m_Users (env.encode [.str "chat", .str user.username, .str msg])
                  Opcode.text
                ++ [Event.log [user.uuid, " (", user.username, "): '", msg, "'"]])
  | _ => .ok (s, [])

/-- The reply and log of the Username handler when the new name equals the
current one and the user has not just joined (lines 292-304; the block does
not leave the case). -/
def sameNameEvents (env : Env) (command : Command) (user : LetsPlayUser)
    (newUsername : String) : List Event :=
  if newUsername == user.username && !(user.username == "") then
    BroadcastOne (env.encode [.str "username", .str user.username, .str user.username])
        command.hdl
      ++ [Event.log [user.uuid, " (", user.username, ") failed username change to : '",
            newUsername, "'"]]
  else []

/-- The body shared by the three failing checks of the Username handler: a guest
name for a user who has just joined, the reply `username old old` otherwise;
`reason` is the end of the log line. -/
def rejectUsername (env : Env) (s : Server) (command : Command) (user : LetsPlayUser)
    (newUsername reason : String) : Outcome :=
  if user.username == "" then
    match GiveGuest env s command.hdl command.user_hdl with
    | .error f => .error f
    | .ok (s1, evs) => .ok (s1, sameNameEvents env command user newUsername ++ evs)
  else
    .ok (s, sameNameEvents env command user newUsername
          ++ BroadcastOne (env.encode [.str "username", .str user.username, .str user.username])
              command.hdl
          ++ [Event.log [user.uuid, " (", user.username, ") failed username change to '",
                newUsername, reason]])

/-- The accepting branch of the Username handler (lines 386-413). -/
def acceptUsername (env : Env) (s : Server) (command : Command) (user : LetsPlayUser)
    (newUsername : String) : Server × List Event :=
  let users := modifyUserHdl command.user_hdl (fun u => { u with username := newUsername })
    s.m_Users
  ({ s with m_Users := users },
    sameNameEvents env command user newUsername
    ++ BroadcastOne (env.encode [.str "username", .str user.username, .str newUsername])
        command.hdl
    ++ [Event.log [user.uuid, " (", newUsername, ") set username to '", newUsername, "'"]]
    ++ (if user.username == "" then
          BroadcastToEmu users user.connectedEmu (env.encode [.str "join", .str newUsername])
              Opcode.text
            ++ [Event.log [user.uuid, " (", newUsername, ") joined."]]
        else
          BroadcastToEmu users user.connectedEmu
              (env.encode [.str "rename", .str user.username, .str newUsername]) Opcode.text
            ++ [Event.log [user.uuid, " (", newUsername, "): ", user.username,
                  " is now known as ", newUsername]]))

/-- `case kCommandType::Username` -/
def usernameCase (env : Env) (s : Server) (command : Command) : Outcome :=
  match command.params with
  | [newUsername] =>
    match lock s.m_Users command.user_hdl with
    | none => .ok (s, [])
    | some user =>
      if newUsername.length > maxUsernameLen env s || newUsername.length < minUsernameLen env s
      then rejectUsername env s command user newUsername "' due to length."
      else
        match contentRejected newUsername with
        | .error f => .error f
        | .ok true => rejectUsername env s command user newUsername "' due to content."
        | .ok false =>
          if UsernameTaken s.m_Users newUsername user.uuid
          then rejectUsername env s command user newUsername "' because its already taken."
          else .ok (acceptUsername env s command user newUsername)
  | _ => .ok (s, [])

/-- `case kCommandType::List` -/
def listCase (env : Env) (s : Server) (command : Command) : Outcome :=
  if !command.params.isEmpty then .ok (s, [])
  else
    match lock s.m_Users command.user_hdl with
    | none => .ok (s, BroadcastOne (env.encode [.str "list"]) command.hdl)
    | some commandUser =>
      .ok (s,
        [Event.log [commandUser.uuid, " (", commandUser.username, ") requested a user list."]]
        ++ BroadcastOne
            (env.encode (Arg.str "list" ::
              ((s.m_Users.filter
                  (fun e => commandUser.connectedEmu == e.user.connectedEmu && !e.expired)).map
                (fun e => Arg.str e.user.username))))
            command.hdl)

/-- `case kCommandType::Turn` -/
def turnCase (_env : Env) (s : Server) (command : Command) : Outcome :=
  if !command.params.isEmpty then .ok (s, [])
  else
    match lock s.m_Users command.user_hdl with
    | none => .ok (s, [])
    | some user =>
      let logged := [Event.log [user.uuid, " (", user.username,
        ") requested a turn.user->requestedTurn: ", showBool user.requestedTurn,
        " user->connectedEmu: ", user.connectedEmu]]
      if user.connectedEmu == "" || user.requestedTurn then .ok (s, logged)
      else
        match emusIndex s.m_Emus command.emuID with
        | (emus, some emu) =>
          .ok ({ s with
                  m_Users := modifyUserHdl command.user_hdl
                    (fun u => { u with requestedTurn := true }) s.m_Users,
                  m_Emus := emus },
               logged ++ [Event.addTurnRequest emu command.user_hdl])
        | (emus, none) => .ok ({ s with m_Emus := emus }, logged)

/-- `case kCommandType::Connect` -/
def connectCase (env : Env) (s : Server) (command : Command) : Outcome :=
  match lock s.m_Users command.user_hdl with
  | none => .ok (s, [])
  | some user =>
    if command.params.length != 1 || user.username == "" then
      .ok (s, BroadcastOne (env.encode [.str "connect", .bool false]) command.hdl
              ++ [Event.log [user.uuid, " (", user.username,
                    ") failed to connect to an emulator (1st check)."]])
    else
      let id := command.params.headD ""
      if !emuFound s.m_Emus id then
        .ok (s, BroadcastOne (env.encode [.str "connect", .bool false]) command.hdl
                ++ [Event.log [user.uuid, " (", user.username,
                      ") tried to connect to an emulator that doesn't exst."]])
      else if user.connectedEmu != "" then .ok (s, [])
      else
        match emusIndex s.m_Emus id with
        | (_, none) => .error .nullEmulator
        | (emus, some emu) =>
          .ok ({ s with
                  m_Users := modifyUserHdl command.user_hdl
                    (fun u => { u with connectedEmu := id }) s.m_Users,
                  m_Emus := emus },
               BroadcastToEmu s.m_Users id (env.encode [.str "join", .str user.username])
                   Opcode.text
               ++ [Event.userConnected emu command.user_hdl]
               ++ BroadcastOne (env.encode [.str "connect", .bool true]) command.hdl
               ++ [Event.log [user.uuid, " (", user.username, ") connected to ", id]]
               ++ BroadcastOne
                   (env.encode [.str "emuinfo", .uint (minUsernameLen env s),
                     .uint (maxUsernameLen env s), .uint (maxMessageSize env s), .str id])
                   command.hdl)

/-- The call `m_Emus[command.emuID]->joypad->updateValue(device, id, value)`. -/
def routeInput (s : Server) (command : Command) (logged : List Event) (device : Nat)
    (id value : Int) : Outcome :=
  match emusIndex s.m_Emus command.emuID with
  | (_, none) => .error .nullEmulator
  | (emus, some emu) =>
    .ok ({ s with m_Emus := emus }, logged ++ [Event.updateValue emu device id value])

/-- The guard `if (auto user = command.user_hdl.lock(); user && !user->hasTurn) break;`
of the Button handler. -/
def turnGuardBreaks (user : Option LetsPlayUser) : Bool :=
  match user with
  | some u => !u.hasTurn
  | none => false

/-- `case kCommandType::Button` -/
def buttonCase (_env : Env) (s : Server) (command : Command) : Outcome :=
  match command.params with
  | [buttonType, idField, valueField] =>
    if turnGuardBreaks (lock s.m_Users command.user_hdl) then .ok (s, [])
    else
      match parseInt16 idField with
      | none => .ok (s, [])
      | some id =>
        match parseInt16 valueField with
        | none => .ok (s, [])
        | some value =>
          let logged : List Event :=
            match lock s.m_Users command.user_hdl with
            | some user =>
              [Event.log [user.uuid, " (", user.username, ") sent a '", buttonType,
                "' update with id '", toString id, "' and value '", toString value, "'"]]
            | none => []
          if id < 0 then .ok (s, logged)
          else if command.emuID != "" then
            if buttonType == "button" then
              if id > 15 then .ok (s, logged)
              else routeInput s command logged RETRO_DEVICE_INDEX_ANALOG_BUTTON id value
            else if buttonType == "leftStick" then
              if id > 1 then .ok (s, logged)
              else routeInput s command logged RETRO_DEVICE_INDEX_ANALOG_LEFT id value
            else if buttonType == "rightStick" then
              if id > 1 then .ok (s, logged)
              else routeInput s command logged RETRO_DEVICE_INDEX_ANALOG_RIGHT id value
            else .ok (s, logged)
          else .ok (s, logged)
  | _ => .ok (s, [])

/-- The guard `if (auto user = command.user_hdl.lock()) { if (!user->hasAdmin) break; }`
of the AddEmu handler. -/
def adminGuardBreaks (user : Option LetsPlayUser) : Bool :=
  match user with
  | some u => !u.hasAdmin
  | none => false

/-- `case kCommandType::AddEmu` -/
def addEmuCase (_env : Env) (s : Server) (command : Command) : Outcome :=
  match command.params with
  | [id, corePath, romPath] =>
    if adminGuardBreaks (lock s.m_Users command.user_hdl) then .ok (s, [])
    else .ok (s, [Event.spawnEmulator corePath romPath id])
  | _ => .ok (s, [])

/-- The guard `if (auto user = command.user_hdl.lock()) { if (user->adminAttempts >= 3) break; }`
of the Admin handler. -/
def attemptsGuardBreaks (user : Option LetsPlayUser) : Bool :=
  match user with
  | some u => decide (u.adminAttempts ≥ 3)
  | none => false

/-- The string a configuration key holds, or the default when it is not a string. -/
def stringOr (j : JsonValue) (dflt : String) : String :=
  match j with
  | .string v => v
  | _ => dflt

/-- The assignment `jsalt = defaultConfig["serverConfig"]["salt"]` through the
reference `jsalt`: a salt that is not a string is overwritten in the configuration. -/
def repairSalt (env : Env) (c : ServerConfig) : ServerConfig :=
  match c.salt with
  | .string _ => c
  | _ => { c with salt := .string env.defaultConfig.salt }

/-- `case kCommandType::Admin` -/
def adminCase (env : Env) (s : Server) (command : Command) : Outcome :=
  match command.params with
  | [attempt] =>
    if attemptsGuardBreaks (lock s.m_Users command.user_hdl) then .ok (s, [])
    else
      let salt := stringOr s.config.salt env.defaultConfig.salt
      let expectedHash := stringOr s.config.adminHash env.defaultConfig.adminHash
      let hashed := env.md5 (attempt ++ salt)
      let logged := [Event.log [salt, " ", expectedHash, " ", hashed]]
      let s1 := { s with config := repairSalt env s.config }
      match lock s.m_Users command.user_hdl with
      | none => .ok (s1, logged)
      | some user =>
        let granted := if hashed == expectedHash then true else user.hasAdmin
        .ok ({ s1 with
                m_Users := modifyUserHdl command.user_hdl
                  (fun u => if hashed == expectedHash then { u with hasAdmin := true }
                            else { u with adminAttempts := u.adminAttempts + 1 }) s.m_Users },
             logged ++ BroadcastOne (env.encode [.str "admin", .bool granted]) command.hdl)
  | _ => .ok (s, [])

/-- `case kCommandType::Pong` -/
def pongCase (_env : Env) (s : Server) (command : Command) : Outcome :=
  match lock s.m_Users command.user_hdl with
  | none => .ok (s, [])
  | some _ =>
    .ok ({ s with
            m_Users := modifyUserHdl command.user_hdl (fun u => { u with lastPong := s.now })
              s.m_Users }, [])

/-- The body of the loop of `LetsPlayServer::QueueThread` for the command at the
front of the work queue: the switch on `command.type`. -/
def dispatch (env : Env) (s : Server) (command : Command) : Outcome :=
  match command.type with
  | .Chat => chatCase env s command
  | .Username => usernameCase env s command
  | .List => listCase env s command
  | .Turn => turnCase env s command
  | .Shutdown => .ok (s, [])
  | .Connect => connectCase env s command
  | .Button => buttonCase env s command
  | .AddEmu => addEmuCase env s command
  | .Admin => adminCase env s command
  | .Pong => pongCase env s command
  | .RemoveEmu => .ok (s, [])
  | .StopEmu => .ok (s, [])
  | .Config => .ok (s, [])
  | .Unknown => .ok (s, [])

/-! ## The transport side: the work queue, `Shutdown` and `OnMessage` -/

/-- The server together with its work queue, the flag the loop of `QueueThread`
tests, the function-local `static bool shuttingdown` of `Shutdown`, and where the
queue thread stands: `workerWaiting` says that it is blocked in
`m_QueueNotifier.wait(lk)` (line 237), which it only is on an empty queue. -/
structure Process where
  state : Server
  m_WorkQueue : List Command
  m_QueueThreadRunning : Bool
  shuttingdown : Bool
  workerWaiting : Bool
  deriving DecidableEq, Repr

/-- The command `Shutdown` leaves in the queue:
`Command{kCommandType::Shutdown, {}, websocketpp::connection_hdl(), ""}`. -/
def shutdownSentinel : Command :=
  { type := .Shutdown, params := [], hdl := none, emuID := "", user_hdl := none }

/-- The command `Run` queues at start-up:
`Command{kCommandType::AddEmu, {"emu1", "./core", "./rom"}, {}, ""}`. -/
def bootstrapCommand : Command :=
  { type := .AddEmu, params := ["emu1", "./core", "./rom"], hdl := none, emuID := "",
    user_hdl := none }

/-- Lines 191-207 of `Shutdown`: the latch is set, the running flag cleared, the
queue emptied and the sentinel pushed. -/
def postSentinel (p : Process) : Process :=
  { p with shuttingdown := true, m_QueueThreadRunning := false,
           m_WorkQueue := [shutdownSentinel] }

/-- What the queue thread does between `m_QueueNotifier.notify_one()` and the
return of `m_QueueThread.join()`: a worker that was blocked in `wait` wakes, takes
the command at the front of the queue (the sentinel, whose case is an empty
`break`) and pops it (line 675); then, like a worker that was not waiting, it
finds `m_QueueThreadRunning` false and leaves the loop. -/
def workerStops (p : Process) : Process :=
  if p.workerWaiting then { p with m_WorkQueue := p.m_WorkQueue.tail, workerWaiting := false }
  else p

/-- `LetsPlayServer::Shutdown`, with `stop_listening` reporting no error. The
state returned is the one at the return of the call, after `join()`. -/
def Shutdown (p : Process) : Process × List Event :=
  if p.shuttingdown then (p, [])
  else
    (workerStops (postSentinel p),
     [Event.log ["Stopping work thread..."], Event.log ["Emptying the queue..."],
      Event.log ["Stopping listen..."], Event.stopListening,
      Event.log ["Waking up work thread..."], Event.notifyQueue,
      Event.log ["Waiting for work thread to stop..."], Event.joinQueueThread,
      Event.log ["Closing every connection..."]]
     ++ (p.state.m_Users.filter (fun e => !e.expired)).map
          (fun e => Event.close e.hdl "Closing"))

/-- The chain of comparisons of `OnMessage` on the first field; `none` is the
final `else return;`. -/
def commandType (command : String) : Option kCommandType :=
  if command = "list" then some .List
  else if command = "chat" then some .Chat
  else if command = "username" then some .Username
  else if command = "button" then some .Button
  else if command = "connect" then some .Connect
  else if command = "turn" then some .Turn
  else if command = "add" then some .AddEmu
  else if command = "admin" then some .Admin
  else if command = "shutdown" then some .Shutdown
  else none

/-- The end of `OnMessage`: the command is pushed on the work queue and the
queue thread is notified, so that it is not waiting any longer. -/
def enqueue (p : Process) (c : Command) (evs : List Event) : Process × List Event :=
  ({ p with m_WorkQueue := p.m_WorkQueue ++ [c], workerWaiting := false },
   evs ++ [Event.notifyQueue])

/-- `LetsPlayServer::OnMessage` for the payload `data` received on `hdl`. -/
def OnMessage (env : Env) (p : Process) (hdl : Nat) (data : String) : Process × List Event :=
  match env.decode data with
  | [] => (p, [])
  | command :: params =>
    match commandType command with
    | none => (p, [])
    | some t =>
      match lock p.state.m_Users (some hdl) with
      | none =>
        enqueue p { type := t, params := params, hdl := some hdl, emuID := "", user_hdl := none }
          []
      | some user =>
        let logged := [Event.log [user.uuid, " (", user.username, ") raw: '", data, "'"]]
        let c : Command :=
          { type := t, params := params, hdl := some hdl, emuID := user.connectedEmu,
            user_hdl := some hdl }
        if t = kCommandType.Shutdown then
          if !user.hasAdmin then (p, logged)
          else enqueue (Shutdown p).1 c (logged ++ (Shutdown p).2)
        else enqueue p c logged

/-- `LetsPlayServer::OnDisconnect`. The entry found under `hdl` owns the user, so
the weak reference taken from it resolves; `m_Users.erase(search)` removes that
entry. The session is looked up with `m_Emus[user->connectedEmu()]` and called
through without a check. -/
def OnDisconnect (env : Env) (s : Server) (hdl : Nat) : Outcome :=
  match lock s.m_Users (some hdl) with
  | none => .ok (s, [Event.log ["Couldn't find user who left in list\n"]])
  | some user =>
    if user.connectedEmu != "" then
      match emusIndex s.m_Emus user.connectedEmu with
      | (_, none) => .error .nullEmulator
      | (emus, some emu) =>
        .ok ({ s with m_Users := s.m_Users.eraseP (fun e => e.hdl == hdl), m_Emus := emus },
             [Event.userDisconnected emu (some hdl)]
             ++ BroadcastToEmu s.m_Users user.connectedEmu
                 (env.encode [.str "leave", .str user.username]) Opcode.text
             ++ [Event.log [user.uuid, " (", user.username, ") left."]])
    else .ok ({ s with m_Users := s.m_Users.eraseP (fun e => e.hdl == hdl) }, [])

/-- `LetsPlayServer::escapeTilde`; `home` is the result of `std::getenv("HOME")`,
`none` for a null pointer. `front()` of an empty path is undefined. -/
def escapeTilde (home : Option String) (str : String) : Except Fault String :=
  match str.data with
  | [] => .error .frontOfEmptyString
  | c :: rest =>
    if c = '~' then
      match home with
      | none => .ok "."
      | some homePath => .ok (homePath ++ String.mk rest)
    else .ok str

/-! ## Observations on states and event traces -/

/-- The frames sent, in order: the recipient and the payload of every
`server->send` of a trace. -/
def sends (evs : List Event) : List (Option Nat × String) :=
  evs.filterMap (fun e => match e with
    | .send h d _ => some (h, d)
    | _ => none)

/-- The frames of a trace addressed to the handle `h`. -/
def sentTo (h : Option Nat) (evs : List Event) : List String :=
  ((sends evs).filter (fun p => p.1 == h)).map (fun p => p.2)

/-- The values routed into an input sink by a trace. -/
def routed (evs : List Event) : List (Nat × Nat × Int × Int) :=
  evs.filterMap (fun e => match e with
    | .updateValue emu d i v => some (emu, d, i, v)
    | _ => none)

/-- A registry entry counts as live when its user has the `connected` flag set
and its handle has not expired. -/
def live (e : UserEntry) : Bool := e.user.connected && !e.expired

/-- The non-empty usernames of live users are pairwise distinct. -/
def UsernamesUnique (users : List UserEntry) : Prop :=
  users.Pairwise (fun a b =>
    live a = true → live b = true → a.user.username ≠ "" → a.user.username ≠ b.user.username)

/-- The uuids of the registry are pairwise distinct. -/
def UuidsDistinct (users : List UserEntry) : Prop :=
  users.Pairwise (fun a b => a.user.uuid ≠ b.user.uuid)

/-- What a handler that only renames its caller can do to the registry: nothing,
or write a name no other live user holds into the user of the caller. -/
def RenamesCaller (s s1 : Server) (command : Command) : Prop :=
  s1.m_Users = s.m_Users ∨
    ∃ k u n, command.user_hdl = some k ∧ lock s.m_Users (some k) = some u ∧
      UsernameTaken s.m_Users n u.uuid = false ∧
      s1.m_Users = modifyUser k (fun v => { v with username := n }) s.m_Users

/-- The string `str` starts, after white space and an optional sign, with a
decimal numeral that denotes `n`: `ds` is the whole run of digits. -/
def LeadingNumeral (str : String) (n : Int) : Prop :=
  ∃ ws sign ds rest, str.data = ws ++ sign ++ ds ++ rest ∧
    (∀ c ∈ ws, isSpaceChar c = true) ∧ (sign = [] ∨ sign = ['-'] ∨ sign = ['+']) ∧
    ds ≠ [] ∧ (∀ c ∈ ds, c.isDigit = true) ∧ (∀ c, rest.head? = some c → c.isDigit = false) ∧
    n = (if sign = ['-'] then -(digitsValue 0 ds : Int) else (digitsValue 0 ds : Int))

/-- The entry `e1` stands where `e` stood, under the same handle and in the same
session. -/
def SameSession (e e1 : UserEntry) : Prop :=
  e1.hdl = e.hdl ∧ e1.user.connectedEmu = e.user.connectedEmu

/-- How one dispatched command may change the session of a registry entry: a
non-empty `connectedEmu` stays, and `connectedEmu` changes only from empty, only
to a key found in `m_Emus`, and only by a Connect command of the user of that
entry which is answered `connect true`. -/
def MembershipStep (env : Env) (s : Server) (command : Command) (evs : List Event)
    (e e1 : UserEntry) : Prop :=
  e1.hdl = e.hdl ∧
  (e.user.connectedEmu ≠ "" → e1.user.connectedEmu = e.user.connectedEmu) ∧
  (e1.user.connectedEmu ≠ e.user.connectedEmu →
    e.user.connectedEmu = "" ∧ command.type = kCommandType.Connect ∧
    command.user_hdl = some e.hdl ∧ command.params = [e1.user.connectedEmu] ∧
    emuFound s.m_Emus e1.user.connectedEmu = true ∧
    Event.send command.hdl (env.encode [.str "connect", .bool true]) Opcode.text ∈ evs)

/-- In every session at most one user has `hasTurn`. -/
def TurnExclusive (users : List UserEntry) : Prop :=
  users.Pairwise (fun a b =>
    a.user.hasTurn = true → b.user.hasTurn = true → a.user.connectedEmu ≠ "" →
      a.user.connectedEmu ≠ b.user.connectedEmu)

/-- A user who has `hasTurn` is a member of a session. -/
def HoldersInSession (users : List UserEntry) : Prop :=
  ∀ e ∈ users, e.user.hasTurn = true → e.user.connectedEmu ≠ ""

/-- The calls a trace makes into a turn arbiter. -/
def isArbiterCall : Event → Bool
  | .addTurnRequest _ _ => true
  | .userConnected _ _ => true
  | _ => false

/-- The registry after the arbiter callbacks of a trace have run; `callback ev`
is what the session does to the users when it receives the call `ev`. -/
def afterCallbacks (callback : Event → List UserEntry → List UserEntry) (evs : List Event)
    (users : List UserEntry) : List UserEntry :=
  (evs.filter isArbiterCall).foldl (fun us ev => callback ev us) users

/-- The value of a numeric configuration key in the words of the specification:
`v` is the configured value when the key holds an unsigned number, and the
default otherwise. -/
def ConfiguredUnsigned (j : JsonValue) (dflt v : Nat) : Prop :=
  j = JsonValue.number_unsigned v ∨ ((∀ n, j ≠ JsonValue.number_unsigned n) ∧ v = dflt)

/-- The value of a string configuration key in the words of the specification:
`v` is the configured value when the key holds a string, and the default
otherwise. -/
def ConfiguredString (j : JsonValue) (dflt v : String) : Prop :=
  j = JsonValue.string v ∨ ((∀ x, j ≠ JsonValue.string x) ∧ v = dflt)

/-- The fan-out `broadcast_all(payload, opcode)` in the words of the
specification: send to every user with a non-empty username, `connected == true`
and a non-expired handle. -/
def specBroadcastAll (users : List UserEntry) (payload : String) (op : Opcode) : List Event :=
  users.filterMap (fun e =>
    if e.user.username ≠ "" ∧ e.user.connected = true ∧ e.expired = false
    then some (Event.send (some e.hdl) payload op) else none)

/-- The fan-out `broadcast_session(session_id, payload, opcode)` in the words of
the specification: as `broadcast_all`, but filtered by
`connected_emu == session_id`. -/
def specBroadcastSession (users : List UserEntry) (session_id payload : String) (op : Opcode) :
    List Event :=
  specBroadcastAll (users.filter (fun e => decide (e.user.connectedEmu = session_id))) payload op

/-! ## A concrete server for worked examples -/

/-- A rendering of `LetsPlayProtocol::encode` for the examples: the fields
separated by blanks. -/
def exampleEncode (args : List Arg) : String :=
  String.intercalate " " (args.map (fun a => match a with
    | .str v => v
    | .bool b => if b then "true" else "false"
    | .uint n => toString n))

/-- The fields of a payload for the examples: `cur` holds the characters of the
field being read, last first. -/
def splitBlanks (cur : List Char) : List Char → List String
  | [] => [String.mk cur.reverse]
  | c :: cs => if c = ' ' then String.mk cur.reverse :: splitBlanks [] cs
               else splitBlanks (c :: cur) cs

/-- A rendering of `LetsPlayProtocol::decode` for the examples: the fields between
blanks; the empty payload has no field. -/
def exampleDecode (data : String) : List String :=
  if data = "" then [] else splitBlanks [] data.data

def exampleEnv : Env :=
  { encode := exampleEncode
    decode := exampleDecode
    md5 := fun v => "md5:" ++ v
    defaultConfig :=
      { maxMessageSize := 255, maxUsernameLength := 16, minUsernameLength := 3,
        jpegQuality := 80, salt := "", adminHash := "" } }

def exampleUser (uuid username connectedEmu : String) : LetsPlayUser :=
  { uuid := uuid, username := username, connectedEmu := connectedEmu, hasAdmin := false,
    adminAttempts := 0, hasTurn := false, requestedTurn := false, connected := true,
    lastPong := 0, ip := "127.0.0.1" }

def exampleConfig : ServerConfig :=
  { maxMessageSize := .null, maxUsernameLength := .null, minUsernameLength := .null,
    jpegQuality := .null, salt := .null, adminHash := .null }

/-- Two connections: `alice` (handle 1) is a member of `emu1`, the user of handle 2
has just connected; two sessions are registered. -/
def exampleServer : Server :=
  { m_Users := [⟨1, false, exampleUser "uuid-a" "alice" "emu1"⟩,
                ⟨2, false, exampleUser "uuid-b" "" ""⟩]
    m_Emus := [("emu1", some 7), ("emu2", some 8)]
    config := exampleConfig
    rnd := [4242, 17]
    now := 100 }

/-- A command as `OnMessage` builds it for the user under handle `h`. -/
def exampleCommand (t : kCommandType) (params : List String) (h : Nat) (emuID : String) :
    Command :=
  { type := t, params := params, hdl := some h, emuID := emuID, user_hdl := some h }

/-- The example server at a time when `alice` holds the turn of `emu1`. -/
def exampleTurnServer : Server :=
  { exampleServer with
    m_Users := [⟨1, false, { exampleUser "uuid-a" "alice" "emu1" with hasTurn := true }⟩,
                ⟨2, false, exampleUser "uuid-b" "" ""⟩] }

/-- The example server in its process, with an empty work queue. -/
def exampleProcess : Process :=
  { state := exampleServer, m_WorkQueue := [], m_QueueThreadRunning := true,
    shuttingdown := false, workerWaiting := true }

/-- The example process at a time when `alice` has passed the admin challenge. -/
def exampleAdminProcess : Process :=
  { exampleProcess with
    state :=
      { exampleServer with
        m_Users := [⟨1, false, { exampleUser "uuid-a" "alice" "emu1" with hasAdmin := true }⟩,
                    ⟨2, false, exampleUser "uuid-b" "" ""⟩] } }

/-- The example server configured with salt `s` and the hash of `pw` with that
salt, at a time when `alice` has used up her three attempts. -/
def exampleLockedServer : Server :=
  { exampleServer with
    m_Users := [⟨1, false, { exampleUser "uuid-a" "alice" "emu1" with adminAttempts := 3 }⟩,
                ⟨2, false, exampleUser "uuid-b" "" ""⟩]
    config := { exampleConfig with salt := .string "s", adminHash := .string "md5:pws" } }

/-- The example server after `bob` (handle 2) has taken a name and joined `emu1`. -/
def exampleJoinedServer : Server :=
  { exampleServer with
    m_Users := [⟨1, false, exampleUser "uuid-a" "alice" "emu1"⟩,
                ⟨2, false, exampleUser "uuid-b" "bob" "emu1"⟩] }

/-- A state outside the data model: `bob`, who is in no session, is marked as a
turn holder while `alice` holds the turn of `emu1`. -/
def exampleStrayHolderServer : Server :=
  { exampleServer with
    m_Users := [⟨1, false, { exampleUser "uuid-a" "alice" "emu1" with hasTurn := true }⟩,
                ⟨2, false, { exampleUser "uuid-b" "bob" "" with hasTurn := true }⟩] }

/-- The example server under a configuration with `minUsernameLength` 0. -/
def exampleZeroMinServer : Server :=
  { exampleServer with
    config := { exampleConfig with minUsernameLength := .number_unsigned 0 } }

/-- The example server under a configuration that sets all three limits:
names of 2 to 10 characters, messages of at most 8; `bob` (handle 2) has a name
and no session yet. -/
def exampleLimitsServer : Server :=
  { exampleServer with
    m_Users := [⟨1, false, exampleUser "uuid-a" "alice" "emu1"⟩,
                ⟨2, false, exampleUser "uuid-b" "bob" ""⟩]
    config := { exampleConfig with
      maxMessageSize := .number_unsigned 8, maxUsernameLength := .number_unsigned 10,
      minUsernameLength := .number_unsigned 2 } }

/-- The example server configured with salt `s` and the hash of `pw` with that
salt; nobody has tried the admin challenge yet. -/
def exampleSaltedServer : Server :=
  { exampleServer with
    config := { exampleConfig with salt := .string "s", adminHash := .string "md5:pws" } }

/-! ## Lemmas and theorems -/

/-! ## Registry lemmas -/

theorem lock_cons (e : UserEntry) (es : List UserEntry) (k : Nat) :
    lock (e :: es) (some k) = if e.hdl = k then some e.user else lock es (some k) := by
  by_cases h : e.hdl = k
  · simp [lock, List.find?_cons, h]
  · have hb : (e.hdl == k) = false := by simpa using h
    simp [lock, List.find?_cons, hb, h]

theorem mem_modifyUser {k : Nat} {f : LetsPlayUser → LetsPlayUser} {u : LetsPlayUser} :
    ∀ {l : List UserEntry} {b : UserEntry}, lock l (some k) = some u → b ∈ modifyUser k f l →
      b ∈ l ∨ ∃ a ∈ l, a.user = u ∧ b = { a with user := f u }
  | [], _, h, _ => by simp [lock] at h
  | e :: es, b, h, hb => by
    rw [lock_cons] at h
    by_cases hk : e.hdl = k
    · simp only [hk, if_true, Option.some.injEq] at h
      simp only [modifyUser, hk, if_true, List.mem_cons] at hb
      rcases hb with hb | hb
      · exact Or.inr ⟨e, List.mem_cons_self _ _, h, by rw [hb, h, ← hk]⟩
      · exact Or.inl (List.mem_cons_of_mem _ hb)
    · simp only [hk, if_false] at h
      simp only [modifyUser, hk, if_false, List.mem_cons] at hb
      rcases hb with hb | hb
      · exact Or.inl (hb ▸ List.mem_cons_self _ _)
      · rcases mem_modifyUser h hb with h1 | ⟨a, ha, hau, hba⟩
        · exact Or.inl (List.mem_cons_of_mem _ h1)
        · exact Or.inr ⟨a, List.mem_cons_of_mem _ ha, hau, hba⟩

theorem lock_mem {k : Nat} {u : LetsPlayUser} :
    ∀ {l : List UserEntry}, lock l (some k) = some u → ∃ a ∈ l, a.hdl = k ∧ a.user = u
  | [], h => by simp [lock] at h
  | e :: es, h => by
    rw [lock_cons] at h
    by_cases hk : e.hdl = k
    · simp only [hk, if_true, Option.some.injEq] at h
      exact ⟨e, List.mem_cons_self _ _, hk, h⟩
    · simp only [hk, if_false] at h
      rcases lock_mem h with ⟨a, ha, h1, h2⟩
      exact ⟨a, List.mem_cons_of_mem _ ha, h1, h2⟩

theorem usernameTaken_false {users : List UserEntry} {n uuid : String}
    (h : UsernameTaken users n uuid = false) :
    ∀ e ∈ users, e.user.uuid ≠ uuid → live e = true → e.user.username ≠ n := by
  intro e he hne hl hn
  have h1 : UsernameTaken users n uuid = true := by
    unfold UsernameTaken
    rw [List.any_eq_true]
    refine ⟨e, he, ?_⟩
    unfold live at hl
    simp only [Bool.and_eq_true, Bool.not_eq_true'] at hl
    simp [hne, hn, hl.1, hl.2]
  rw [h] at h1
  exact Bool.noConfusion h1

theorem usernameTaken_cons_false {e : UserEntry} {es : List UserEntry} {n uuid : String}
    (h : UsernameTaken (e :: es) n uuid = false) : UsernameTaken es n uuid = false := by
  unfold UsernameTaken at h ⊢
  rw [List.any_cons, Bool.or_eq_false_iff] at h
  exact h.2

/-- Writing a name nobody else holds keeps the live usernames pairwise distinct. -/
theorem usernamesUnique_modifyUser {k : Nat} {u : LetsPlayUser} {n : String} :
    ∀ {l : List UserEntry}, UuidsDistinct l → UsernamesUnique l → lock l (some k) = some u →
      UsernameTaken l n u.uuid = false →
      UsernamesUnique (modifyUser k (fun v => { v with username := n }) l)
  | [], _, _, h, _ => by simp [lock] at h
  | e :: es, hU, hN, hl, ht => by
    unfold UuidsDistinct UsernamesUnique at *
    rw [List.pairwise_cons] at hU hN
    have hl0 := hl
    rw [lock_cons] at hl
    by_cases hk : e.hdl = k
    · simp only [hk, if_true, Option.some.injEq] at hl
      simp only [modifyUser, hk, if_true]
      rw [List.pairwise_cons]
      refine ⟨?_, hN.2⟩
      intro b hb _ hlb _ hnb
      have hne : b.user.uuid ≠ u.uuid := by
        rw [← hl]; exact fun h => hU.1 b hb h.symm
      exact usernameTaken_false ht b (List.mem_cons_of_mem _ hb) hne hlb hnb.symm
    · simp only [hk, if_false] at hl
      simp only [modifyUser, hk, if_false]
      rw [List.pairwise_cons]
      refine ⟨?_, usernamesUnique_modifyUser hU.2 hN.2 hl (usernameTaken_cons_false ht)⟩
      intro b hb hle hlb hne
      rcases mem_modifyUser hl hb with h1 | ⟨a, ha, hau, hba⟩
      · exact hN.1 b h1 hle hlb hne
      · have hne2 : e.user.uuid ≠ u.uuid := by
          rw [← hau]; exact hU.1 a ha
        have := usernameTaken_false ht e (List.mem_cons_self _ _) hne2 hle
        rw [hba]
        exact this

theorem pickGuest_free {users : List UserEntry} {uuid : String} :
    ∀ {rnd : List Nat} {v : String} {rest : List Nat},
      pickGuest users uuid rnd = some (v, rest) → UsernameTaken users v uuid = false
  | [], _, _, h => by simp [pickGuest] at h
  | r :: rs, v, rest, h => by
    unfold pickGuest at h
    by_cases ht : UsernameTaken users (guestName r) uuid = true
    · rw [if_pos ht] at h
      exact pickGuest_free h
    · rw [if_neg ht] at h
      simp only [Option.some.injEq, Prod.mk.injEq] at h
      rw [← h.1]
      simpa using ht

theorem giveGuest_renames {env : Env} {s s1 : Server} {command : Command} {evs : List Event}
    (h : GiveGuest env s command.hdl command.user_hdl = .ok (s1, evs)) :
    RenamesCaller s s1 command := by
  unfold GiveGuest at h
  cases hh : command.user_hdl with
  | none =>
    rw [hh] at h
    simp only [lock, Except.ok.injEq, Prod.mk.injEq] at h
    exact Or.inl (by rw [← h.1])
  | some k =>
    rw [hh] at h
    cases hl : lock s.m_Users (some k) with
    | none =>
      rw [hl] at h
      simp only [Except.ok.injEq, Prod.mk.injEq] at h
      exact Or.inl (by rw [← h.1])
    | some u =>
      simp only [hl] at h
      cases hp : pickGuest s.m_Users u.uuid s.rnd with
      | none => simp [hp] at h
      | some p =>
        obtain ⟨v, rest⟩ := p
        simp only [hp, Except.ok.injEq, Prod.mk.injEq] at h
        refine Or.inr ⟨k, u, v, hh, hl, pickGuest_free hp, ?_⟩
        rw [← h.1]
        rfl

theorem rejectUsername_renames {env : Env} {s s1 : Server} {command : Command}
    {user : LetsPlayUser} {n r : String} {evs : List Event}
    (h : rejectUsername env s command user n r = .ok (s1, evs)) :
    RenamesCaller s s1 command := by
  unfold rejectUsername at h
  split at h
  · cases hg : GiveGuest env s command.hdl command.user_hdl with
    | error f => rw [hg] at h; simp at h
    | ok p =>
      obtain ⟨s2, e2⟩ := p
      rw [hg] at h
      simp only [Except.ok.injEq, Prod.mk.injEq] at h
      rw [← h.1]
      exact giveGuest_renames hg
  · simp only [Except.ok.injEq, Prod.mk.injEq] at h
    exact Or.inl (by rw [← h.1])

theorem usernameCase_renames {env : Env} {s s1 : Server} {command : Command}
    {evs : List Event} (h : usernameCase env s command = .ok (s1, evs)) :
    RenamesCaller s s1 command := by
  unfold usernameCase at h
  split at h
  · rename_i newUsername _
    split at h
    · simp only [Except.ok.injEq, Prod.mk.injEq] at h
      exact Or.inl (by rw [← h.1])
    · rename_i user hl
      split at h
      · exact rejectUsername_renames h
      · split at h
        · simp at h
        · exact rejectUsername_renames h
        · split at h
          · exact rejectUsername_renames h
          · rename_i ht
            simp only [Except.ok.injEq] at h
            cases hh : command.user_hdl with
            | none => rw [hh] at hl; simp [lock] at hl
            | some k =>
              rw [hh] at hl
              refine Or.inr ⟨k, user, newUsername, hh, hl, by simpa using ht, ?_⟩
              simp only [acceptUsername, Prod.mk.injEq] at h
              rw [← h.1, hh]
              rfl
  · simp only [Except.ok.injEq, Prod.mk.injEq] at h
    exact Or.inl (by rw [← h.1])

theorem usernamesUnique_of_renames {s s1 : Server} {command : Command}
    (hU : UuidsDistinct s.m_Users) (hN : UsernamesUnique s.m_Users)
    (h : RenamesCaller s s1 command) : UsernamesUnique s1.m_Users := by
  rcases h with h | ⟨k, u, n, _, hl, ht, h⟩
  · rw [h]; exact hN
  · rw [h]; exact usernamesUnique_modifyUser hU hN hl ht

/-! ## Username dispatch -/

/-- C1. Username uniqueness is an invariant of Username dispatch: from a registry
with pairwise distinct uuids in which the non-empty usernames of live users are
pairwise distinct, a Username command that is dispatched to completion (acceptance,
rejection or guest fallback) leaves the non-empty usernames of live users pairwise
distinct. -/
theorem username_dispatch_keeps_usernames_unique (env : Env) (s s1 : Server)
    (command : Command) (evs : List Event) (hty : command.type = kCommandType.Username)
    (hU : UuidsDistinct s.m_Users) (hN : UsernamesUnique s.m_Users)
    (hres : dispatch env s command = .ok (s1, evs)) : UsernamesUnique s1.m_Users := by
  unfold dispatch at hres
  rw [hty] at hres
  exact usernamesUnique_of_renames hU hN (usernameCase_renames hres)

/-- Witness for C1: the user who has just connected asks for the name `alice`,
which is taken, and is given `guest4242`. -/
theorem username_dispatch_keeps_usernames_unique_witness :
    UsernamesUnique
      [⟨1, false, exampleUser "uuid-a" "alice" "emu1"⟩,
       ⟨2, false, exampleUser "uuid-b" "guest4242" ""⟩] :=
  username_dispatch_keeps_usernames_unique exampleEnv exampleServer
    { exampleServer with
      m_Users := [⟨1, false, exampleUser "uuid-a" "alice" "emu1"⟩,
                  ⟨2, false, exampleUser "uuid-b" "guest4242" ""⟩],
      rnd := [17] }
    (exampleCommand .Username ["alice"] 2 "")
    [Event.send (some 2) "username  guest4242" Opcode.text,
     Event.log ["uuid-b", " (", "", ") given new username '", "guest4242", "'"]]
    rfl (by unfold UuidsDistinct; decide) (by unfold UsernamesUnique; decide) rfl

theorem lock_modifyUser {k : Nat} {f : LetsPlayUser → LetsPlayUser} {u : LetsPlayUser} :
    ∀ {l : List UserEntry}, lock l (some k) = some u →
      lock (modifyUser k f l) (some k) = some (f u)
  | [], h => by simp [lock] at h
  | e :: es, h => by
    rw [lock_cons] at h
    by_cases hk : e.hdl = k
    · simp only [hk, if_true, Option.some.injEq] at h
      simp only [modifyUser, hk, if_true]
      rw [lock_cons]
      simp [h]
    · simp only [hk, if_false] at h
      simp only [modifyUser, hk, if_false]
      rw [lock_cons]
      simp only [hk, if_false]
      exact lock_modifyUser h

theorem findDoubleSpace_false :
    ∀ l : List Char, findDoubleSpace l = false → ¬ ([' ', ' '] <:+: l)
  | [], _ => by simp
  | [a], _ => by
    intro h
    have := h.length_le
    simp at this
  | a :: b :: cs, h => by
    unfold findDoubleSpace at h
    rw [Bool.or_eq_false_iff] at h
    rw [List.infix_cons_iff]
    rintro (hp | hi)
    · rw [List.cons_prefix_cons, List.cons_prefix_cons] at hp
      have h1 := h.1
      simp [← hp.1, ← hp.2.1] at h1
    · exact findDoubleSpace_false (b :: cs) h.2 hi

theorem isAsciiStr_true {str : String} (h : isAsciiStr str = true) :
    ∀ c ∈ str.data, 32 ≤ c.toNat ∧ c.toNat ≤ 126 := by
  intro c hc
  unfold isAsciiStr at h
  rw [List.all_eq_true] at h
  simpa using h c hc

theorem contentRejected_false {str : String} (h : contentRejected str = .ok false) :
    str.data.head? ≠ some ' ' ∧ str.data.getLast? ≠ some ' ' ∧
      (∀ c ∈ str.data, 32 ≤ c.toNat ∧ c.toNat ≤ 126) ∧ ¬ ([' ', ' '] <:+: str.data) := by
  unfold contentRejected at h
  cases hd : str.data with
  | nil => rw [hd] at h; simp at h
  | cons a rest =>
    rw [hd] at h
    simp only [Except.ok.injEq, Bool.or_eq_false_iff, beq_eq_false_iff_ne, ne_eq,
      Bool.not_eq_false'] at h
    obtain ⟨⟨⟨h1, h2⟩, h3⟩, h4⟩ := h
    refine ⟨by simpa using h1, ?_, ?_, findDoubleSpace_false _ h4⟩
    · rw [List.getLast?_cons]
      simpa using h2
    · have := isAsciiStr_true h3
      rwa [hd] at this

/-- The log line of the accepting branch of the Username handler. -/
theorem acceptLog_not_mem_sameNameEvents (env : Env) (command : Command) (user : LetsPlayUser)
    (n : String) (u a b : String) :
    Event.log [u, " (", a, ") set username to '", b, "'"] ∉
      sameNameEvents env command user n := by
  unfold sameNameEvents BroadcastOne
  split <;> simp

theorem acceptLog_not_mem_reject {env : Env} {s s1 : Server} {command : Command}
    {user : LetsPlayUser} {n r : String} {evs : List Event} (u a b : String)
    (h : rejectUsername env s command user n r = .ok (s1, evs)) :
    Event.log [u, " (", a, ") set username to '", b, "'"] ∉ evs := by
  have hs := acceptLog_not_mem_sameNameEvents env command user n u a b
  unfold rejectUsername at h
  split at h
  · cases hg : GiveGuest env s command.hdl command.user_hdl with
    | error f => rw [hg] at h; simp at h
    | ok p =>
      obtain ⟨s2, e2⟩ := p
      rw [hg] at h
      simp only [Except.ok.injEq, Prod.mk.injEq] at h
      rw [← h.2]
      unfold GiveGuest at hg
      split at hg
      · simp only [Except.ok.injEq, Prod.mk.injEq] at hg
        rw [← hg.2]
        simpa using hs
      · split at hg
        · simp at hg
        · simp only [Except.ok.injEq, Prod.mk.injEq] at hg
          rw [← hg.2]
          simp [BroadcastOne, hs]
  · simp only [Except.ok.injEq, Prod.mk.injEq] at h
    rw [← h.2]
    simp [BroadcastOne, hs]

/-- C2. Under a configuration with `minUsernameLength >= 1`, a Username command
with the one parameter `newName` from a live user that takes the accepting branch
(the branch that logs `set username to` and writes the name) has
`minUsernameLength <= |newName| <= maxUsernameLength`, no leading and no trailing
space, every byte of `newName` in `[0x20, 0x7E]`, no two consecutive spaces, and
`UsernameTaken(newName, user.uuid)` was false: no other live user holds `newName`.
The user then holds `newName`. -/
theorem accepted_username_satisfies_checks (env : Env) (s s1 : Server) (command : Command)
    (evs : List Event) (newName : String) (user : LetsPlayUser)
    (hty : command.type = kCommandType.Username) (hp : command.params = [newName])
    (hu : lock s.m_Users command.user_hdl = some user)
    (_hmin : 1 ≤ minUsernameLen env s)
    (hres : dispatch env s command = .ok (s1, evs))
    (hacc : Event.log [user.uuid, " (", newName, ") set username to '", newName, "'"] ∈ evs) :
    minUsernameLen env s ≤ newName.length ∧ newName.length ≤ maxUsernameLen env s ∧
    newName.data.head? ≠ some ' ' ∧ newName.data.getLast? ≠ some ' ' ∧
    (∀ c ∈ newName.data, 32 ≤ c.toNat ∧ c.toNat ≤ 126) ∧
    ¬ ([' ', ' '] <:+: newName.data) ∧
    UsernameTaken s.m_Users newName user.uuid = false ∧
    (∀ e ∈ s.m_Users, e.user.uuid ≠ user.uuid → live e = true → e.user.username ≠ newName) ∧
    lock s1.m_Users command.user_hdl = some { user with username := newName } := by
  unfold dispatch at hres
  rw [hty] at hres
  unfold usernameCase at hres
  simp only [hp, hu] at hres
  split at hres
  · exact absurd hacc (acceptLog_not_mem_reject _ _ _ hres)
  · rename_i hlen
    split at hres
    · simp at hres
    · exact absurd hacc (acceptLog_not_mem_reject _ _ _ hres)
    · rename_i hc
      split at hres
      · exact absurd hacc (acceptLog_not_mem_reject _ _ _ hres)
      · rename_i ht
        have ht1 : UsernameTaken s.m_Users newName user.uuid = false := by simpa using ht
        obtain ⟨c1, c2, c3, c4⟩ := contentRejected_false hc
        simp only [Bool.or_eq_true, decide_eq_true_eq, not_or, not_lt] at hlen
        refine ⟨hlen.2, hlen.1, c1, c2, c3, c4, ht1, usernameTaken_false ht1, ?_⟩
        simp only [acceptUsername, Except.ok.injEq, Prod.mk.injEq] at hres
        rw [← hres.1]
        cases hh : command.user_hdl with
        | none => rw [hh] at hu; simp [lock] at hu
        | some k =>
          rw [hh] at hu
          exact lock_modifyUser hu

/-- Witness for C2: the user who has just connected takes the free name `bobby`. -/
theorem accepted_username_satisfies_checks_witness :
    minUsernameLen exampleEnv exampleServer ≤ "bobby".length ∧
    "bobby".length ≤ maxUsernameLen exampleEnv exampleServer ∧
    "bobby".data.head? ≠ some ' ' ∧ "bobby".data.getLast? ≠ some ' ' ∧
    (∀ c ∈ "bobby".data, 32 ≤ c.toNat ∧ c.toNat ≤ 126) ∧
    ¬ ([' ', ' '] <:+: "bobby".data) ∧
    UsernameTaken exampleServer.m_Users "bobby" "uuid-b" = false ∧
    (∀ e ∈ exampleServer.m_Users, e.user.uuid ≠ "uuid-b" → live e = true →
      e.user.username ≠ "bobby") ∧
    lock
      [⟨1, false, exampleUser "uuid-a" "alice" "emu1"⟩,
       ⟨2, false, exampleUser "uuid-b" "bobby" ""⟩] (some 2)
      = some (exampleUser "uuid-b" "bobby" "") :=
  accepted_username_satisfies_checks exampleEnv exampleServer
    { exampleServer with
      m_Users := [⟨1, false, exampleUser "uuid-a" "alice" "emu1"⟩,
                  ⟨2, false, exampleUser "uuid-b" "bobby" ""⟩] }
    (exampleCommand .Username ["bobby"] 2 "")
    [Event.send (some 2) "username  bobby" Opcode.text,
     Event.log ["uuid-b", " (", "bobby", ") set username to '", "bobby", "'"],
     Event.send (some 2) "join bobby" Opcode.text,
     Event.log ["uuid-b", " (", "bobby", ") joined."]]
    "bobby" (exampleUser "uuid-b" "" "") rfl rfl rfl (by decide) rfl (by decide)

/-- C3 (the code at the failing input). `alice` asks for the name she already
holds: the handler sends the rejection `username alice alice`, does not leave the
case, runs the remaining checks, accepts, sends `username alice alice` a second
time and broadcasts `rename alice alice` to her session. -/
theorem same_name_rename_is_not_stopped :
    dispatch exampleEnv exampleServer (exampleCommand .Username ["alice"] 1 "emu1") =
      .ok (exampleServer,
        [Event.send (some 1) "username alice alice" Opcode.text,
         Event.log ["uuid-a", " (", "alice", ") failed username change to : '", "alice", "'"],
         Event.send (some 1) "username alice alice" Opcode.text,
         Event.log ["uuid-a", " (", "alice", ") set username to '", "alice", "'"],
         Event.send (some 1) "rename alice alice" Opcode.text,
         Event.log ["uuid-a", " (", "alice", "): ", "alice", " is now known as ", "alice"]]) := by
  rfl

theorem sameNameEvents_of_ne {env : Env} {command : Command} {user : LetsPlayUser}
    {n : String} (h : n ≠ user.username) : sameNameEvents env command user n = [] := by
  unfold sameNameEvents
  simp [h]

theorem rejectUsername_established {env : Env} {s : Server} {command : Command}
    {user : LetsPlayUser} {n r : String} (hold : user.username ≠ "") (hne : n ≠ user.username) :
    ∃ evs, rejectUsername env s command user n r = .ok (s, evs) ∧
      sends evs = [(command.hdl,
        env.encode [.str "username", .str user.username, .str user.username])] := by
  unfold rejectUsername
  rw [sameNameEvents_of_ne hne]
  simp [hold, BroadcastOne, sends]

/-- C4. A failed rename of an established user is atomic: for a Username command
from a live user whose current name `old` is non-empty and differs from `newName`,
if `newName` fails the length check, or fails the content check, or passes the
content check and is taken by another live user, then dispatch completes with the
state unchanged (no username changes) and sends exactly one frame, the reply
`("username", old, old)` to the caller, hence no broadcast. -/
theorem failed_rename_is_atomic (env : Env) (s : Server) (command : Command)
    (newName : String) (user : LetsPlayUser)
    (hty : command.type = kCommandType.Username) (hp : command.params = [newName])
    (hu : lock s.m_Users command.user_hdl = some user)
    (hold : user.username ≠ "") (hne : newName ≠ user.username)
    (hfail : (newName.length > maxUsernameLen env s ∨ newName.length < minUsernameLen env s) ∨
      contentRejected newName = .ok true ∨
      (contentRejected newName = .ok false ∧
        UsernameTaken s.m_Users newName user.uuid = true)) :
    ∃ evs, dispatch env s command = .ok (s, evs) ∧
      sends evs = [(command.hdl,
        env.encode [.str "username", .str user.username, .str user.username])] := by
  unfold dispatch
  rw [hty]
  unfold usernameCase
  simp only [hp, hu]
  split
  · exact rejectUsername_established hold hne
  · rename_i hlen
    simp only [Bool.or_eq_true, decide_eq_true_eq] at hlen
    rcases hfail with hl | hc | ⟨hc, ht⟩
    · exact absurd hl hlen
    · simp only [hc]
      exact rejectUsername_established hold hne
    · simp only [hc, ht, if_true]
      exact rejectUsername_established hold hne

/-- Witness for C4: `alice` asks for the one-letter name `a`, shorter than the
minimum of 3. -/
theorem failed_rename_is_atomic_witness :
    ∃ evs, dispatch exampleEnv exampleServer (exampleCommand .Username ["a"] 1 "emu1") =
        .ok (exampleServer, evs) ∧
      sends evs = [(some 1, "username alice alice")] :=
  failed_rename_is_atomic exampleEnv exampleServer (exampleCommand .Username ["a"] 1 "emu1")
    "a" (exampleUser "uuid-a" "alice" "emu1") rfl rfl rfl (by decide) (by decide)
    (Or.inl (Or.inr (by decide)))

/-! ## Chat dispatch -/

theorem unsignedOr_of_configured {j : JsonValue} {dflt v : Nat}
    (h : ConfiguredUnsigned j dflt v) : unsignedOr j dflt = v := by
  rcases h with h | ⟨hn, hv⟩
  · rw [h]
    rfl
  · rw [hv]
    cases j with
    | number_unsigned n => exact absurd rfl (hn n)
    | _ => rfl

theorem stringOr_of_configured {j : JsonValue} {dflt v : String}
    (h : ConfiguredString j dflt v) : stringOr j dflt = v := by
  rcases h with h | ⟨hn, hv⟩
  · rw [h]
    rfl
  · rw [hv]
    cases j with
    | string x => exact absurd rfl (hn x)
    | _ => rfl

/-- The two outcomes of the Chat case, with the limit as the handler reads it. -/
theorem chatCase_broadcast_iff (env : Env) (s : Server) (command : Command)
    (hty : command.type = kCommandType.Chat) :
    (∃ msg user, command.params = [msg] ∧ lock s.m_Users command.user_hdl = some user ∧
        user.username ≠ "" ∧ (∀ c ∈ msg.data, 32 ≤ c.toNat ∧ c.toNat ≤ 126) ∧
        escapedSize msg ≤ unsignedOr s.config.maxMessageSize env.defaultConfig.maxMessageSize ∧
        dispatch env s command =
          .ok (s, BroadcastAll s.m_Users
                    (env.encode [.str "chat", .str user.username, .str msg]) Opcode.text
                  ++ [Event.log [user.uuid, " (", user.username, "): '", msg, "'"]])) ∨
    ((¬ ∃ msg user, command.params = [msg] ∧ lock s.m_Users command.user_hdl = some user ∧
        user.username ≠ "" ∧ (∀ c ∈ msg.data, 32 ≤ c.toNat ∧ c.toNat ≤ 126) ∧
        escapedSize msg ≤ unsignedOr s.config.maxMessageSize env.defaultConfig.maxMessageSize) ∧
      dispatch env s command = .ok (s, [])) := by
  have hd : dispatch env s command = chatCase env s command := by
    unfold dispatch
    rw [hty]
  rw [hd]
  unfold chatCase
  split
  · rename_i msg hp
    split
    · rename_i hl
      refine Or.inr ⟨?_, rfl⟩
      rintro ⟨m, u, _, hu, _⟩
      rw [hl] at hu
      exact Option.noConfusion hu
    · rename_i user hl
      by_cases hname : user.username = ""
      · simp only [hname, beq_self_eq_true, if_true]
        refine Or.inr ⟨?_, trivial⟩
        rintro ⟨m, u, _, hu, hn, _⟩
        rw [hl, Option.some.injEq] at hu
        exact hn (hu ▸ hname)
      · have hb : (user.username == "") = false := by simpa using hname
        simp only [hb, Bool.false_eq_true, if_false]
        by_cases hasc : isAsciiStr msg = true
        · simp only [hasc, Bool.not_true, Bool.false_eq_true, if_false]
          by_cases hsz : escapedSize msg > maxMessageSize env s
          · simp only [hsz, decide_True, if_true]
            refine Or.inr ⟨?_, trivial⟩
            rintro ⟨m, u, hm, _, _, _, hle⟩
            rw [hp, List.cons.injEq] at hm
            rw [← hm.1] at hle
            exact absurd hsz (not_lt.mpr hle)
          · simp only [hsz, decide_False, Bool.false_eq_true, if_false]
            exact Or.inl ⟨msg, user, hp, hl, hname, isAsciiStr_true hasc, not_lt.mp hsz, rfl⟩
        · have hf : isAsciiStr msg = false := by simpa using hasc
          simp only [hf, Bool.not_false, if_true]
          refine Or.inr ⟨?_, trivial⟩
          rintro ⟨m, u, hm, _, _, hall, _⟩
          rw [hp, List.cons.injEq] at hm
          rw [← hm.1] at hall
          apply hasc
          unfold isAsciiStr
          rw [List.all_eq_true]
          intro c hc
          simpa using hall c hc
  · rename_i hp
    refine Or.inr ⟨?_, rfl⟩
    rintro ⟨m, u, hm, _⟩
    exact hp m hm

/-- C5. A Chat command causes a broadcast exactly when it has one parameter `msg`,
its user resolves and has a non-empty username, every byte of `msg` is in
`[0x20, 0x7E]` and `escapedSize(msg) <= limit`, where `limit` is the configured
`maxMessageSize` when that is an unsigned number and the default otherwise: then
the state is unchanged and the trace is `BroadcastAll` of
`encode("chat", username, msg)` followed by the log line; otherwise the state is
unchanged and nothing at all is issued. -/
theorem chat_broadcast_iff (env : Env) (s : Server) (command : Command) (limit : Nat)
    (hty : command.type = kCommandType.Chat)
    (hlimit : ConfiguredUnsigned s.config.maxMessageSize env.defaultConfig.maxMessageSize
      limit) :
    (∃ msg user, command.params = [msg] ∧ lock s.m_Users command.user_hdl = some user ∧
        user.username ≠ "" ∧ (∀ c ∈ msg.data, 32 ≤ c.toNat ∧ c.toNat ≤ 126) ∧
        escapedSize msg ≤ limit ∧
        dispatch env s command =
          .ok (s, BroadcastAll s.m_Users
                    (env.encode [.str "chat", .str user.username, .str msg]) Opcode.text
                  ++ [Event.log [user.uuid, " (", user.username, "): '", msg, "'"]])) ∨
    ((¬ ∃ msg user, command.params = [msg] ∧ lock s.m_Users command.user_hdl = some user ∧
        user.username ≠ "" ∧ (∀ c ∈ msg.data, 32 ≤ c.toNat ∧ c.toNat ≤ 126) ∧
        escapedSize msg ≤ limit) ∧
      dispatch env s command = .ok (s, [])) := by
  have h := chatCase_broadcast_iff env s command hty
  rw [unsignedOr_of_configured hlimit] at h
  exact h

/-- Witness for C5: under the configured limit of 8, `alice` says `helloworld`,
of escaped size 10; the message is dropped, where the default limit of 255 would
let it through. -/
theorem chat_broadcast_iff_witness :
    exampleLimitsServer.config.maxMessageSize = JsonValue.number_unsigned 8 ∧
    exampleEnv.defaultConfig.maxMessageSize = 255 ∧
    dispatch exampleEnv exampleLimitsServer (exampleCommand .Chat ["helloworld"] 1 "emu1")
      = .ok (exampleLimitsServer, []) := by
  refine ⟨rfl, rfl, ?_⟩
  rcases chat_broadcast_iff exampleEnv exampleLimitsServer
      (exampleCommand .Chat ["helloworld"] 1 "emu1") 8 rfl (Or.inl rfl) with
    ⟨msg, _, hp, _, _, _, hle, _⟩ | ⟨_, hdrop⟩
  · have hmsg : msg = "helloworld" := by
      have := List.head_eq_of_cons_eq hp
      exact this.symm
    rw [hmsg] at hle
    exact absurd hle (by decide)
  · exact hdrop

/-! ## Connect dispatch -/

/-- C6 (the code at the failing input). `alice`, a member of `emu1`, sends
`connect emu2`: the handler leaves the case at the check of `connectedEmu`
without a reply, where the two earlier failures answer `("connect", false)`. -/
theorem connect_while_in_session_gets_no_reply :
    dispatch exampleEnv exampleServer (exampleCommand .Connect ["emu2"] 1 "emu1") =
      .ok (exampleServer, []) := by
  rfl

theorem sentTo_eq_nil {h : Option Nat} :
    ∀ {evs : List Event}, (∀ d op, Event.send h d op ∉ evs) → sentTo h evs = []
  | [], _ => rfl
  | e :: es, hne => by
    have ih : sentTo h es = [] :=
      sentTo_eq_nil (fun d op hm => hne d op (List.mem_cons_of_mem _ hm))
    unfold sentTo sends at ih ⊢
    cases e with
    | send h1 d op =>
      have hh : h1 ≠ h := by
        rintro rfl
        exact hne d op (List.mem_cons_self _ _)
      simp [List.filterMap_cons, List.filter_cons, hh, ih]
    | _ => simpa [List.filterMap_cons] using ih

theorem sentTo_append (h : Option Nat) (a b : List Event) :
    sentTo h (a ++ b) = sentTo h a ++ sentTo h b := by
  unfold sentTo sends
  rw [List.filterMap_append, List.filter_append, List.map_append]

theorem mem_broadcastToEmu {users : List UserEntry} {id message : String} {op : Opcode}
    {ev : Event} :
    ev ∈ BroadcastToEmu users id message op ↔
      ∃ e ∈ users, (e.user.connectedEmu = id ∧ e.user.username ≠ "" ∧ e.user.connected = true ∧
        e.expired = false) ∧ ev = Event.send (some e.hdl) message op := by
  unfold BroadcastToEmu
  simp only [List.mem_map, List.mem_filter, Bool.and_eq_true, beq_iff_eq, bne_iff_ne, ne_eq,
    Bool.not_eq_true']
  constructor
  · rintro ⟨e, ⟨he, ⟨⟨h1, h2⟩, h3⟩, h4⟩, rfl⟩
    exact ⟨e, he, ⟨h1, h2, h3, h4⟩, rfl⟩
  · rintro ⟨e, he, ⟨h1, h2, h3, h4⟩, rfl⟩
    exact ⟨e, ⟨he, ⟨⟨h1, h2⟩, h3⟩, h4⟩, rfl⟩

theorem emusIndex_of_lookup {emus : List (String × Option Nat)} {id : String}
    {p : Option Nat} (h : emus.lookup id = some p) : emusIndex emus id = (emus, p) := by
  unfold emusIndex
  rw [h]

/-- The success path of the Connect case, with the limits as the handler reads
them. -/
theorem connectCase_success (env : Env) (s : Server) (command : Command) (emu_id : String)
    (emu k : Nat) (user : LetsPlayUser)
    (hty : command.type = kCommandType.Connect) (hp : command.params = [emu_id])
    (hid : emu_id ≠ "") (hemu : s.m_Emus.lookup emu_id = some (some emu))
    (hh : command.user_hdl = some k) (hc : command.hdl = some k)
    (hkeys : (s.m_Users.map (fun e => e.hdl)).Nodup)
    (hu : lock s.m_Users (some k) = some user)
    (hname : user.username ≠ "") (hce : user.connectedEmu = "") :
    ∃ joins s1 evs,
      joins = BroadcastToEmu s.m_Users emu_id (env.encode [.str "join", .str user.username])
        Opcode.text ∧
      s1 = { s with
              m_Users := (modifyUser k (fun u => { u with connectedEmu := emu_id }) s.m_Users) } ∧
      evs = joins ++
        [Event.userConnected emu (some k),
         Event.send (some k) (env.encode [.str "connect", .bool true]) Opcode.text,
         Event.log [user.uuid, " (", user.username, ") connected to ", emu_id],
         Event.send (some k)
           (env.encode [.str "emuinfo",
             .uint (unsignedOr s.config.minUsernameLength env.defaultConfig.minUsernameLength),
             .uint (unsignedOr s.config.maxUsernameLength env.defaultConfig.maxUsernameLength),
             .uint (unsignedOr s.config.maxMessageSize env.defaultConfig.maxMessageSize),
             .str emu_id]) Opcode.text] ∧
      dispatch env s command = .ok (s1, evs) ∧
      (∀ e ∈ s.m_Users,
        (Event.send (some e.hdl) (env.encode [.str "join", .str user.username]) Opcode.text
            ∈ joins ↔
          (e.user.connectedEmu = emu_id ∧ e.user.username ≠ "" ∧ e.user.connected = true ∧
            e.expired = false))) ∧
      (∀ d op, Event.send (some k) d op ∉ joins) ∧
      lock s1.m_Users (some k) = some { user with connectedEmu := emu_id } ∧
      sentTo (some k) evs =
        [env.encode [.str "connect", .bool true],
         env.encode [.str "emuinfo",
           .uint (unsignedOr s.config.minUsernameLength env.defaultConfig.minUsernameLength),
           .uint (unsignedOr s.config.maxUsernameLength env.defaultConfig.maxUsernameLength),
           .uint (unsignedOr s.config.maxMessageSize env.defaultConfig.maxMessageSize),
           .str emu_id]] := by
  have hcaller : ∀ d op, Event.send (some k) d op ∉
      BroadcastToEmu s.m_Users emu_id (env.encode [.str "join", .str user.username])
        Opcode.text := by
    intro d op hm
    obtain ⟨e, he, ⟨h1, _, _, _⟩, heq⟩ := mem_broadcastToEmu.mp hm
    obtain ⟨a, ha, hak, hau⟩ := lock_mem hu
    simp only [Event.send.injEq, Option.some.injEq] at heq
    have hea : e = a :=
      List.inj_on_of_nodup_map hkeys he ha (by rw [hak]; exact heq.1.symm)
    rw [hea, hau, hce] at h1
    exact hid h1.symm
  refine ⟨_, _, _, rfl, rfl, rfl, ?_, ?_, hcaller, ?_, ?_⟩
  · unfold dispatch
    rw [hty]
    unfold connectCase
    have hnb : (user.username == "") = false := by simpa using hname
    have hfound : emuFound s.m_Emus emu_id = true := by
      unfold emuFound
      rw [hemu]
      rfl
    simp [hh, hu, hp, hnb, hfound, hce, emusIndex_of_lookup hemu, hc, BroadcastOne,
      modifyUserHdl, maxUsernameLen, minUsernameLen, maxMessageSize]
  · intro e he
    rw [mem_broadcastToEmu]
    constructor
    · rintro ⟨e1, he1, hcond, heq⟩
      simp only [Event.send.injEq, Option.some.injEq] at heq
      have : e = e1 := List.inj_on_of_nodup_map hkeys he he1 heq.1
      rw [this]
      exact hcond
    · intro hcond
      exact ⟨e, he, hcond, rfl⟩
  · exact lock_modifyUser hu
  · rw [sentTo_append, sentTo_eq_nil hcaller]
    simp [sentTo, sends]


/-- C7. A Connect command with the one parameter `emu_id` (non-empty) that names
a registered session, from a live user with a non-empty username and an empty
`connectedEmu`, (1) broadcasts `("join", username)` to the named, connected,
non-expired users already in session `emu_id`, never to the caller; (2) sets the
caller's `connectedEmu` to `emu_id` and calls `userConnected` on the session;
(3) sends the caller `("connect", true)` and then
`("emuinfo", minLen, maxLen, maxMsg, emu_id)`, where each of the three limits is
the configured value of its key when that is an unsigned number and the default
otherwise. The registry keys are distinct, as in a `std::map`, and the command
carries the handle of its user, as `OnMessage` builds it. -/
theorem connect_success (env : Env) (s : Server) (command : Command) (emu_id : String)
    (emu k : Nat) (user : LetsPlayUser) (minLen maxLen maxMsg : Nat)
    (hty : command.type = kCommandType.Connect) (hp : command.params = [emu_id])
    (hid : emu_id ≠ "") (hemu : s.m_Emus.lookup emu_id = some (some emu))
    (hh : command.user_hdl = some k) (hc : command.hdl = some k)
    (hkeys : (s.m_Users.map (fun e => e.hdl)).Nodup)
    (hu : lock s.m_Users (some k) = some user)
    (hname : user.username ≠ "") (hce : user.connectedEmu = "")
    (hmin : ConfiguredUnsigned s.config.minUsernameLength env.defaultConfig.minUsernameLength
      minLen)
    (hmax : ConfiguredUnsigned s.config.maxUsernameLength env.defaultConfig.maxUsernameLength
      maxLen)
    (hmsg : ConfiguredUnsigned s.config.maxMessageSize env.defaultConfig.maxMessageSize
      maxMsg) :
    ∃ joins s1 evs,
      joins = BroadcastToEmu s.m_Users emu_id (env.encode [.str "join", .str user.username])
        Opcode.text ∧
      s1 = { s with
              m_Users := (modifyUser k (fun u => { u with connectedEmu := emu_id }) s.m_Users) } ∧
      evs = joins ++
        [Event.userConnected emu (some k),
         Event.send (some k) (env.encode [.str "connect", .bool true]) Opcode.text,
         Event.log [user.uuid, " (", user.username, ") connected to ", emu_id],
         Event.send (some k)
           (env.encode [.str "emuinfo",
             .uint minLen,
             .uint maxLen,
             .uint maxMsg,
             .str emu_id]) Opcode.text] ∧
      dispatch env s command = .ok (s1, evs) ∧
      (∀ e ∈ s.m_Users,
        (Event.send (some e.hdl) (env.encode [.str "join", .str user.username]) Opcode.text
            ∈ joins ↔
          (e.user.connectedEmu = emu_id ∧ e.user.username ≠ "" ∧ e.user.connected = true ∧
            e.expired = false))) ∧
      (∀ d op, Event.send (some k) d op ∉ joins) ∧
      lock s1.m_Users (some k) = some { user with connectedEmu := emu_id } ∧
      sentTo (some k) evs =
        [env.encode [.str "connect", .bool true],
         env.encode [.str "emuinfo",
           .uint minLen,
           .uint maxLen,
           .uint maxMsg,
           .str emu_id]] := by
  have h := connectCase_success env s command emu_id emu k user hty hp hid hemu hh hc hkeys hu
    hname hce
  rw [unsignedOr_of_configured hmin, unsignedOr_of_configured hmax,
    unsignedOr_of_configured hmsg] at h
  exact h

/-- Witness for C7: under a configuration that sets the limits to 2, 10 and 8,
`bob` connects to `emu1`, of which `alice` is a member. -/
theorem connect_success_witness :
    ∃ joins s1 evs,
      joins = [Event.send (some 1) "join bob" Opcode.text] ∧
      s1 = { exampleLimitsServer with
              m_Users := [⟨1, false, exampleUser "uuid-a" "alice" "emu1"⟩,
                          ⟨2, false, exampleUser "uuid-b" "bob" "emu1"⟩] } ∧
      evs = joins ++
        [Event.userConnected 7 (some 2),
         Event.send (some 2) "connect true" Opcode.text,
         Event.log ["uuid-b", " (", "bob", ") connected to ", "emu1"],
         Event.send (some 2) "emuinfo 2 10 8 emu1" Opcode.text] ∧
      dispatch exampleEnv exampleLimitsServer (exampleCommand .Connect ["emu1"] 2 "")
        = .ok (s1, evs) ∧
      sentTo (some 2) evs = ["connect true", "emuinfo 2 10 8 emu1"] := by
  obtain ⟨joins, s1, evs, h1, h2, h3, h4, _, _, _, h8⟩ :=
    connect_success exampleEnv exampleLimitsServer (exampleCommand .Connect ["emu1"] 2 "")
      "emu1" 7 2 (exampleUser "uuid-b" "bob" "") 2 10 8
      rfl rfl (by decide) rfl rfl rfl (by decide) rfl (by decide) rfl
      (Or.inl rfl) (Or.inl rfl) (Or.inl rfl)
  exact ⟨joins, s1, evs, h1, h2, h3, h4, h8⟩

/-! ## Session membership -/

theorem forall₂_modifyUser {R : UserEntry → UserEntry → Prop} {k : Nat}
    {f : LetsPlayUser → LetsPlayUser} {u : LetsPlayUser} (hrefl : ∀ e, R e e)
    (hstep : ∀ e, e.hdl = k → e.user = u → R e { e with user := f e.user }) :
    ∀ {l : List UserEntry}, lock l (some k) = some u → List.Forall₂ R l (modifyUser k f l)
  | [], h => by simp [lock] at h
  | e :: es, h => by
    rw [lock_cons] at h
    by_cases hk : e.hdl = k
    · simp only [hk, if_true, Option.some.injEq] at h
      simp only [modifyUser, hk, if_true]
      refine List.Forall₂.cons ?_ (List.forall₂_same.mpr (fun x _ => hrefl x))
      have := hstep e hk h
      rwa [hk] at this
    · simp only [hk, if_false] at h
      simp only [modifyUser, hk, if_false]
      exact List.Forall₂.cons (hrefl e) (forall₂_modifyUser hrefl hstep h)

theorem sameSession_refl (e : UserEntry) : SameSession e e := ⟨rfl, rfl⟩

theorem forall₂_sameSession_refl (l : List UserEntry) : List.Forall₂ SameSession l l :=
  List.forall₂_same.mpr (fun x _ => sameSession_refl x)

/-- A write through the caller's reference that leaves `connectedEmu` alone keeps
every entry in its session. -/
theorem forall₂_sameSession_modifyUserHdl {h : Option Nat} {f : LetsPlayUser → LetsPlayUser}
    {u : LetsPlayUser} {l : List UserEntry} (hl : lock l h = some u)
    (hf : ∀ v, (f v).connectedEmu = v.connectedEmu) :
    List.Forall₂ SameSession l (modifyUserHdl h f l) := by
  cases h with
  | none => simp [lock] at hl
  | some k =>
    exact forall₂_modifyUser sameSession_refl (fun e _ _ => ⟨rfl, hf e.user⟩) hl

theorem sameSession_of_renames {s s1 : Server} {command : Command}
    (h : RenamesCaller s s1 command) : List.Forall₂ SameSession s.m_Users s1.m_Users := by
  rcases h with h | ⟨k, u, n, _, hl, _, h⟩
  · rw [h]; exact forall₂_sameSession_refl _
  · rw [h]
    exact forall₂_modifyUser sameSession_refl (fun e _ _ => ⟨rfl, rfl⟩) hl

theorem turnCase_sameSession {env : Env} {s s1 : Server} {command : Command}
    {evs : List Event} (h : turnCase env s command = .ok (s1, evs)) :
    List.Forall₂ SameSession s.m_Users s1.m_Users := by
  unfold turnCase at h
  split at h
  · simp only [Except.ok.injEq, Prod.mk.injEq] at h
    rw [← h.1]; exact forall₂_sameSession_refl _
  · split at h
    · simp only [Except.ok.injEq, Prod.mk.injEq] at h
      rw [← h.1]; exact forall₂_sameSession_refl _
    · rename_i user hl
      split at h
      · simp only [Except.ok.injEq, Prod.mk.injEq] at h
        rw [← h.1]; exact forall₂_sameSession_refl _
      · split at h
        · simp only [Except.ok.injEq, Prod.mk.injEq] at h
          rw [← h.1]
          exact forall₂_sameSession_modifyUserHdl hl (fun _ => rfl)
        · simp only [Except.ok.injEq, Prod.mk.injEq] at h
          rw [← h.1]; exact forall₂_sameSession_refl _

theorem adminCase_sameSession {env : Env} {s s1 : Server} {command : Command}
    {evs : List Event} (h : adminCase env s command = .ok (s1, evs)) :
    List.Forall₂ SameSession s.m_Users s1.m_Users := by
  unfold adminCase at h
  split at h
  · split at h
    · simp only [Except.ok.injEq, Prod.mk.injEq] at h
      rw [← h.1]; exact forall₂_sameSession_refl _
    · split at h
      · simp only [Except.ok.injEq, Prod.mk.injEq] at h
        rw [← h.1]; exact forall₂_sameSession_refl _
      · rename_i user hl
        simp only [Except.ok.injEq, Prod.mk.injEq] at h
        rw [← h.1]
        exact forall₂_sameSession_modifyUserHdl hl (fun v => by split <;> rfl)
  · simp only [Except.ok.injEq, Prod.mk.injEq] at h
    rw [← h.1]; exact forall₂_sameSession_refl _

theorem pongCase_sameSession {env : Env} {s s1 : Server} {command : Command}
    {evs : List Event} (h : pongCase env s command = .ok (s1, evs)) :
    List.Forall₂ SameSession s.m_Users s1.m_Users := by
  unfold pongCase at h
  split at h
  · simp only [Except.ok.injEq, Prod.mk.injEq] at h
    rw [← h.1]; exact forall₂_sameSession_refl _
  · rename_i user hl
    simp only [Except.ok.injEq, Prod.mk.injEq] at h
    rw [← h.1]
    exact forall₂_sameSession_modifyUserHdl hl (fun _ => rfl)

theorem routeInput_users {s s1 : Server} {command : Command} {logged evs : List Event}
    {d : Nat} {i v : Int} (h : routeInput s command logged d i v = .ok (s1, evs)) :
    s1.m_Users = s.m_Users ∧
      evs = logged ++ [Event.updateValue ((emusIndex s.m_Emus command.emuID).2.getD 0) d i v] := by
  unfold routeInput at h
  split at h
  · simp at h
  · rename_i emus emu he
    simp only [Except.ok.injEq, Prod.mk.injEq] at h
    rw [← h.1, ← h.2, he]
    exact ⟨rfl, rfl⟩

/-- The ways the Button handler can finish: without routing anything, or routing
the one triple it parsed. -/
theorem buttonCase_outcome {env : Env} {s s1 : Server} {command : Command}
    {evs : List Event} (h : buttonCase env s command = .ok (s1, evs)) :
    s1.m_Users = s.m_Users ∧
    (routed evs = [] ∨
      ∃ kind idField valueField i v d emu,
        command.params = [kind, idField, valueField] ∧
        turnGuardBreaks (lock s.m_Users command.user_hdl) = false ∧
        parseInt16 idField = some i ∧ parseInt16 valueField = some v ∧ 0 ≤ i ∧
        command.emuID ≠ "" ∧
        ((kind = "button" ∧ d = RETRO_DEVICE_INDEX_ANALOG_BUTTON ∧ i ≤ 15) ∨
         (kind = "leftStick" ∧ d = RETRO_DEVICE_INDEX_ANALOG_LEFT ∧ i ≤ 1) ∨
         (kind = "rightStick" ∧ d = RETRO_DEVICE_INDEX_ANALOG_RIGHT ∧ i ≤ 1)) ∧
        routed evs = [(emu, d, i, v)]) := by
  unfold buttonCase at h
  split at h
  · rename_i kind idField valueField hp
    split at h
    · simp only [Except.ok.injEq, Prod.mk.injEq] at h
      rw [← h.1, ← h.2]; exact ⟨rfl, Or.inl rfl⟩
    · rename_i hg
      split at h
      · simp only [Except.ok.injEq, Prod.mk.injEq] at h
        rw [← h.1, ← h.2]; exact ⟨rfl, Or.inl rfl⟩
      · rename_i i hi
        split at h
        · simp only [Except.ok.injEq, Prod.mk.injEq] at h
          rw [← h.1, ← h.2]; exact ⟨rfl, Or.inl rfl⟩
        · rename_i v hv
          have hlog : ∀ l : List Event,
              l = (match lock s.m_Users command.user_hdl with
                | some user =>
                  [Event.log [user.uuid, " (", user.username, ") sent a '", kind,
                    "' update with id '", toString i, "' and value '", toString v, "'"]]
                | none => []) → routed l = [] := by
            intro l hl
            rw [hl]
            split <;> rfl
          have hroute : ∀ {l : List Event} {d : Nat},
              routed l = [] → routeInput s command l d i v = .ok (s1, evs) →
              s1.m_Users = s.m_Users ∧ ∃ emu, routed evs = [(emu, d, i, v)] := by
            intro l d hl hr
            obtain ⟨h1, h2⟩ := routeInput_users hr
            refine ⟨h1, (emusIndex s.m_Emus command.emuID).2.getD 0, ?_⟩
            rw [h2]
            unfold routed at hl ⊢
            rw [List.filterMap_append, hl]
            rfl
          have hnone : ∀ {l : List Event}, routed l = [] →
              (Except.ok (s, l) : Outcome) = .ok (s1, evs) →
              s1.m_Users = s.m_Users ∧ routed evs = [] := by
            intro l hl hr
            simp only [Except.ok.injEq, Prod.mk.injEq] at hr
            rw [← hr.1, ← hr.2]
            exact ⟨rfl, hl⟩
          have hg1 : turnGuardBreaks (lock s.m_Users command.user_hdl) = false := by
            simpa using hg
          dsimp only at h
          split at h
          · obtain ⟨a, b⟩ := hnone (hlog _ rfl) h
            exact ⟨a, Or.inl b⟩
          · rename_i hneg
            have h0 : 0 ≤ i := not_lt.mp hneg
            split at h
            · rename_i hemu
              have hemu1 : command.emuID ≠ "" := by simpa using hemu
              split at h
              · rename_i hk
                have hk1 : kind = "button" := by simpa using hk
                split at h
                · obtain ⟨a, b⟩ := hnone (hlog _ rfl) h
                  exact ⟨a, Or.inl b⟩
                · rename_i hle
                  obtain ⟨a, emu, b⟩ := hroute (hlog _ rfl) h
                  exact ⟨a, Or.inr ⟨kind, idField, valueField, i, v, _, emu, hp, hg1, hi, hv,
                    h0, hemu1, Or.inl ⟨hk1, rfl, not_lt.mp hle⟩, b⟩⟩
              · split at h
                · rename_i hk
                  have hk1 : kind = "leftStick" := by simpa using hk
                  split at h
                  · obtain ⟨a, b⟩ := hnone (hlog _ rfl) h
                    exact ⟨a, Or.inl b⟩
                  · rename_i hle
                    obtain ⟨a, emu, b⟩ := hroute (hlog _ rfl) h
                    exact ⟨a, Or.inr ⟨kind, idField, valueField, i, v, _, emu, hp, hg1, hi,
                      hv, h0, hemu1, Or.inr (Or.inl ⟨hk1, rfl, not_lt.mp hle⟩), b⟩⟩
                · split at h
                  · rename_i hk
                    have hk1 : kind = "rightStick" := by simpa using hk
                    split at h
                    · obtain ⟨a, b⟩ := hnone (hlog _ rfl) h
                      exact ⟨a, Or.inl b⟩
                    · rename_i hle
                      obtain ⟨a, emu, b⟩ := hroute (hlog _ rfl) h
                      exact ⟨a, Or.inr ⟨kind, idField, valueField, i, v, _, emu, hp, hg1, hi,
                        hv, h0, hemu1, Or.inr (Or.inr ⟨hk1, rfl, not_lt.mp hle⟩), b⟩⟩
                  · obtain ⟨a, b⟩ := hnone (hlog _ rfl) h
                    exact ⟨a, Or.inl b⟩
            · obtain ⟨a, b⟩ := hnone (hlog _ rfl) h
              exact ⟨a, Or.inl b⟩
  · simp only [Except.ok.injEq, Prod.mk.injEq] at h
    rw [← h.1, ← h.2]; exact ⟨rfl, Or.inl rfl⟩

theorem chatCase_users {env : Env} {s s1 : Server} {command : Command} {evs : List Event}
    (h : chatCase env s command = .ok (s1, evs)) : s1 = s := by
  unfold chatCase at h
  repeat' split at h
  all_goals
    simp only [Except.ok.injEq, Prod.mk.injEq] at h
    exact h.1.symm

theorem listCase_users {env : Env} {s s1 : Server} {command : Command} {evs : List Event}
    (h : listCase env s command = .ok (s1, evs)) : s1 = s := by
  unfold listCase at h
  repeat' split at h
  all_goals
    simp only [Except.ok.injEq, Prod.mk.injEq] at h
    exact h.1.symm

theorem addEmuCase_users {env : Env} {s s1 : Server} {command : Command} {evs : List Event}
    (h : addEmuCase env s command = .ok (s1, evs)) : s1 = s := by
  unfold addEmuCase at h
  repeat' split at h
  all_goals
    simp only [Except.ok.injEq, Prod.mk.injEq] at h
    exact h.1.symm

theorem membershipStep_of_sameSession {env : Env} {s : Server} {command : Command}
    {evs : List Event} {l l1 : List UserEntry} (h : List.Forall₂ SameSession l l1) :
    List.Forall₂ (MembershipStep env s command evs) l l1 :=
  h.imp (fun _ _ hab => ⟨hab.1, fun _ => hab.2, fun hne => absurd hab.2 hne⟩)

theorem connectCase_membership {env : Env} {s s1 : Server} {command : Command}
    {evs : List Event} (hty : command.type = kCommandType.Connect)
    (h : connectCase env s command = .ok (s1, evs)) :
    List.Forall₂ (MembershipStep env s command evs) s.m_Users s1.m_Users := by
  have hsame : ∀ {l : List Event}, (Except.ok (s, l) : Outcome) = .ok (s1, evs) →
      List.Forall₂ (MembershipStep env s command evs) s.m_Users s1.m_Users := by
    intro l hr
    simp only [Except.ok.injEq, Prod.mk.injEq] at hr
    rw [← hr.1]
    exact membershipStep_of_sameSession (forall₂_sameSession_refl _)
  unfold connectCase at h
  split at h
  · exact hsame h
  · rename_i user hl
    split at h
    · exact hsame h
    · rename_i h1
      simp only [Bool.or_eq_true, bne_iff_ne, ne_eq, beq_iff_eq, not_or, not_not] at h1
      dsimp only at h
      split at h
      · exact hsame h
      · rename_i hf
        split at h
        · exact hsame h
        · rename_i hce
          split at h
          · simp at h
          · rename_i emus emu _
            simp only [Except.ok.injEq, Prod.mk.injEq] at h
            obtain ⟨id, hid⟩ : ∃ id, command.params = [id] := by
              cases hp : command.params with
              | nil => rw [hp] at h1; simp at h1
              | cons a t =>
                cases t with
                | nil => exact ⟨a, rfl⟩
                | cons b t2 => rw [hp] at h1; simp at h1
            have hhd : command.params.headD "" = id := by rw [hid]; rfl
            rw [hhd] at h hf
            cases hh : command.user_hdl with
            | none => rw [hh] at hl; simp [lock] at hl
            | some k =>
              rw [hh] at hl
              rw [← h.1]
              simp only [hh, modifyUserHdl]
              refine forall₂_modifyUser
                (fun e => ⟨rfl, fun _ => rfl, fun hne => absurd rfl hne⟩) ?_ hl
              intro e hek heu
              have hemp : e.user.connectedEmu = "" := by
                rw [heu]; simpa using hce
              refine ⟨rfl, fun hne => absurd hemp hne, fun _ => ?_⟩
              refine ⟨hemp, hty, by rw [hek]; exact hh, hid, by simpa using hf, ?_⟩
              rw [← h.2]
              simp [BroadcastOne]

/-- C8. Session membership is write-once. For every command of any kind that is
dispatched to completion, the registry keeps its entries in place, every entry
whose `connectedEmu` was non-empty has the same `connectedEmu` afterwards, and an
entry whose `connectedEmu` differs afterwards had it empty, the command is a
Connect of the user of that entry naming the new value, that value is a key of
`m_Emus`, and the command was answered `("connect", true)`. -/
theorem session_membership_is_write_once (env : Env) (s s1 : Server) (command : Command)
    (evs : List Event) (hres : dispatch env s command = .ok (s1, evs)) :
    List.Forall₂ (MembershipStep env s command evs) s.m_Users s1.m_Users := by
  have hsame : ∀ {l : List Event}, (Except.ok (s, l) : Outcome) = .ok (s1, evs) →
      List.Forall₂ (MembershipStep env s command evs) s.m_Users s1.m_Users := by
    intro l hr
    simp only [Except.ok.injEq, Prod.mk.injEq] at hr
    rw [← hr.1]
    exact membershipStep_of_sameSession (forall₂_sameSession_refl _)
  have hrefl : ∀ {t : Server}, t = s →
      List.Forall₂ (MembershipStep env s command evs) s.m_Users t.m_Users := by
    intro t ht
    rw [ht]
    exact membershipStep_of_sameSession (forall₂_sameSession_refl _)
  unfold dispatch at hres
  cases hty : command.type <;> rw [hty] at hres <;> dsimp only at hres
  · exact hrefl (listCase_users hres)
  · exact hrefl (chatCase_users hres)
  · exact membershipStep_of_sameSession (sameSession_of_renames (usernameCase_renames hres))
  · rw [(buttonCase_outcome hres).1]
    exact membershipStep_of_sameSession (forall₂_sameSession_refl _)
  · exact connectCase_membership hty hres
  · exact membershipStep_of_sameSession (turnCase_sameSession hres)
  · exact hrefl (addEmuCase_users hres)
  · exact membershipStep_of_sameSession (adminCase_sameSession hres)
  · exact hsame hres
  · exact membershipStep_of_sameSession (pongCase_sameSession hres)
  · exact hsame hres
  · exact hsame hres
  · exact hsame hres
  · exact hsame hres

/-- Witness for C8: `bob` connects to `emu1`; the entry of `alice` keeps `emu1`
and the entry of `bob` goes from no session to `emu1`. -/
theorem session_membership_is_write_once_witness :
    List.Forall₂
      (MembershipStep exampleEnv
        { exampleServer with
          m_Users := [⟨1, false, exampleUser "uuid-a" "alice" "emu1"⟩,
                      ⟨2, false, exampleUser "uuid-b" "bob" ""⟩] }
        (exampleCommand .Connect ["emu1"] 2 "")
        [Event.send (some 1) "join bob" Opcode.text,
         Event.userConnected 7 (some 2),
         Event.send (some 2) "connect true" Opcode.text,
         Event.log ["uuid-b", " (", "bob", ") connected to ", "emu1"],
         Event.send (some 2) "emuinfo 3 16 255 emu1" Opcode.text])
      [⟨1, false, exampleUser "uuid-a" "alice" "emu1"⟩,
       ⟨2, false, exampleUser "uuid-b" "bob" ""⟩]
      [⟨1, false, exampleUser "uuid-a" "alice" "emu1"⟩,
       ⟨2, false, exampleUser "uuid-b" "bob" "emu1"⟩] :=
  session_membership_is_write_once exampleEnv
    { exampleServer with
      m_Users := [⟨1, false, exampleUser "uuid-a" "alice" "emu1"⟩,
                  ⟨2, false, exampleUser "uuid-b" "bob" ""⟩] }
    { exampleServer with
      m_Users := [⟨1, false, exampleUser "uuid-a" "alice" "emu1"⟩,
                  ⟨2, false, exampleUser "uuid-b" "bob" "emu1"⟩] }
    (exampleCommand .Connect ["emu1"] 2 "") _ rfl

/-! ## Button dispatch -/

/-- C9 (the code at the failing input). A Button command whose originating user
has left the registry (handle 9 resolves to nobody) is not stopped by the turn
guard `user && !user->hasTurn`: its value is routed into the joypad of `emu1`. -/
theorem button_of_vanished_user_is_routed :
    lock exampleServer.m_Users (some 9) = none ∧
    dispatch exampleEnv exampleServer (exampleCommand .Button ["button", "0", "1"] 9 "emu1") =
      .ok (exampleServer, [Event.updateValue 7 RETRO_DEVICE_INDEX_ANALOG_BUTTON 0 1]) := by
  exact ⟨rfl, rfl⟩

theorem readSign_spec (l : List Char) :
    ∃ sign, (sign = [] ∨ sign = ['-'] ∨ sign = ['+']) ∧ l = sign ++ (readSign l).2 ∧
      ((readSign l).1 = true ↔ sign = ['-']) := by
  cases l with
  | nil => exact ⟨[], Or.inl rfl, rfl, by simp [readSign]⟩
  | cons c cs =>
    by_cases h1 : c = '-'
    · exact ⟨['-'], Or.inr (Or.inl rfl), by simp [readSign, h1], by simp [readSign, h1]⟩
    · by_cases h2 : c = '+'
      · exact ⟨['+'], Or.inr (Or.inr rfl), by simp [readSign, h2], by simp [readSign, h2]⟩
      · exact ⟨[], Or.inl rfl, by simp [readSign, h1, h2], by simp [readSign, h1, h2]⟩

/-- The number `parseInt16` reads before the range check. -/
theorem parseInt16_eq (str : String) :
    parseInt16 str =
      if List.takeWhile Char.isDigit (readSign (str.data.dropWhile isSpaceChar)).2 = [] then none
      else if signedValue str < -32768 ∨ 32767 < signedValue str then none
      else some (signedValue str) := rfl

theorem parseInt16_spec {str : String} {n : Int} (h : parseInt16 str = some n) :
    LeadingNumeral str n ∧ -32768 ≤ n ∧ n ≤ 32767 := by
  rw [parseInt16_eq] at h
  by_cases hds :
      List.takeWhile Char.isDigit (readSign (str.data.dropWhile isSpaceChar)).2 = []
  · rw [if_pos hds] at h
    exact Option.noConfusion h
  · rw [if_neg hds] at h
    by_cases hrange : signedValue str < -32768 ∨ 32767 < signedValue str
    · rw [if_pos hrange] at h
      exact Option.noConfusion h
    · rw [if_neg hrange] at h
      simp only [Option.some.injEq] at h
      obtain ⟨sign, hsign, hsplit, hneg⟩ := readSign_spec (str.data.dropWhile isSpaceChar)
      constructor
      · refine ⟨str.data.takeWhile isSpaceChar, sign,
          (readSign (str.data.dropWhile isSpaceChar)).2.takeWhile Char.isDigit,
          (readSign (str.data.dropWhile isSpaceChar)).2.dropWhile Char.isDigit,
          ?_, ?_, hsign, hds, ?_, ?_, ?_⟩
        · rw [List.append_assoc, List.append_assoc, List.takeWhile_append_dropWhile, ← hsplit,
            List.takeWhile_append_dropWhile]
        · intro c hc
          exact List.mem_takeWhile_imp hc
        · intro c hc
          exact List.mem_takeWhile_imp hc
        · intro c hc
          have := List.head?_dropWhile_not Char.isDigit
            (readSign (str.data.dropWhile isSpaceChar)).2
          rw [hc] at this
          exact this
        · rw [← h]
          unfold signedValue
          by_cases hb : (readSign (str.data.dropWhile isSpaceChar)).1 = true
          · rw [if_pos hb, if_pos (hneg.mp hb)]
          · rw [if_neg hb, if_neg (fun hs => hb (hneg.mpr hs))]
      · rw [← h]
        omega

/-- C10. Button routing respects the device ranges. Whenever a Button command
that is dispatched to completion routes a triple `(device, id, value)` into an
input sink, the command has the three parameters `kind`, `idField`, `valueField`,
both fields start (after white space and an optional sign) with a decimal numeral,
denoting `id` and `value` in the signed 16-bit range, the device class is
button / left stick / right stick exactly when `kind` is `"button"` /
`"leftStick"` / `"rightStick"`, and `0 <= id <= 15` for the button class,
`0 <= id <= 1` for a stick class. So a command with another kind, with `id < 0`,
with an id above the class limit, or with a field that has no leading numeral or
denotes a number outside the 16-bit range routes nothing. -/
theorem button_routing_respects_ranges (env : Env) (s s1 : Server) (command : Command)
    (evs : List Event) (emu d : Nat) (i v : Int)
    (hty : command.type = kCommandType.Button)
    (hres : dispatch env s command = .ok (s1, evs))
    (hr : (emu, d, i, v) ∈ routed evs) :
    ∃ kind idField valueField,
      command.params = [kind, idField, valueField] ∧
      parseInt16 idField = some i ∧ parseInt16 valueField = some v ∧
      LeadingNumeral idField i ∧ LeadingNumeral valueField v ∧
      (d = RETRO_DEVICE_INDEX_ANALOG_BUTTON ↔ kind = "button") ∧
      (d = RETRO_DEVICE_INDEX_ANALOG_LEFT ↔ kind = "leftStick") ∧
      (d = RETRO_DEVICE_INDEX_ANALOG_RIGHT ↔ kind = "rightStick") ∧
      (kind = "button" ∨ kind = "leftStick" ∨ kind = "rightStick") ∧
      0 ≤ i ∧ (kind = "button" → i ≤ 15) ∧ (kind ≠ "button" → i ≤ 1) ∧
      -32768 ≤ v ∧ v ≤ 32767 := by
  unfold dispatch at hres
  rw [hty] at hres
  dsimp only at hres
  rcases (buttonCase_outcome hres).2 with hnil | ⟨kind, idField, valueField, i1, v1, d1, emu1,
    hp, _, hi, hv, h0, _, hk, hroute⟩
  · rw [hnil] at hr
    exact absurd hr (List.not_mem_nil _)
  · rw [hroute, List.mem_singleton] at hr
    simp only [Prod.mk.injEq] at hr
    obtain ⟨_, rfl, rfl, rfl⟩ := hr
    obtain ⟨ni, _, _⟩ := parseInt16_spec hi
    obtain ⟨nv, hv1, hv2⟩ := parseInt16_spec hv
    refine ⟨kind, idField, valueField, hp, hi, hv, ni, nv, ?_, ?_, ?_, ?_, h0, ?_, ?_, hv1, hv2⟩
    · rcases hk with ⟨a, b, _⟩ | ⟨a, b, _⟩ | ⟨a, b, _⟩ <;> rw [a, b] <;> decide
    · rcases hk with ⟨a, b, _⟩ | ⟨a, b, _⟩ | ⟨a, b, _⟩ <;> rw [a, b] <;> decide
    · rcases hk with ⟨a, b, _⟩ | ⟨a, b, _⟩ | ⟨a, b, _⟩ <;> rw [a, b] <;> decide
    · rcases hk with ⟨a, _, _⟩ | ⟨a, _, _⟩ | ⟨a, _, _⟩
      · exact Or.inl a
      · exact Or.inr (Or.inl a)
      · exact Or.inr (Or.inr a)
    · rcases hk with ⟨_, _, c⟩ | ⟨a, _, _⟩ | ⟨a, _, _⟩
      · exact fun _ => c
      · rw [a]; intro hx; exact absurd hx (by decide)
      · rw [a]; intro hx; exact absurd hx (by decide)
    · rcases hk with ⟨a, _, _⟩ | ⟨_, _, c⟩ | ⟨_, _, c⟩
      · exact fun hx => absurd a hx
      · exact fun _ => c
      · exact fun _ => c

/-- Witness for C10: `alice`, holding the turn, sends `button leftStick 1 -32768`. -/
theorem button_routing_respects_ranges_witness :
    ∃ kind idField valueField,
      (exampleCommand .Button ["leftStick", "1", "-32768"] 1 "emu1").params
        = [kind, idField, valueField] ∧
      parseInt16 idField = some 1 ∧ parseInt16 valueField = some (-32768) ∧
      LeadingNumeral idField 1 ∧ LeadingNumeral valueField (-32768) ∧
      (RETRO_DEVICE_INDEX_ANALOG_LEFT = RETRO_DEVICE_INDEX_ANALOG_BUTTON ↔ kind = "button") ∧
      (RETRO_DEVICE_INDEX_ANALOG_LEFT = RETRO_DEVICE_INDEX_ANALOG_LEFT ↔ kind = "leftStick") ∧
      (RETRO_DEVICE_INDEX_ANALOG_LEFT = RETRO_DEVICE_INDEX_ANALOG_RIGHT ↔ kind = "rightStick") ∧
      (kind = "button" ∨ kind = "leftStick" ∨ kind = "rightStick") ∧
      (0 : Int) ≤ 1 ∧ (kind = "button" → (1 : Int) ≤ 15) ∧ (kind ≠ "button" → (1 : Int) ≤ 1) ∧
      (-32768 : Int) ≤ -32768 ∧ (-32768 : Int) ≤ 32767 :=
  button_routing_respects_ranges exampleEnv exampleTurnServer exampleTurnServer
    (exampleCommand .Button ["leftStick", "1", "-32768"] 1 "emu1")
    [Event.log ["uuid-a", " (", "alice", ") sent a '", "leftStick", "' update with id '", "1",
       "' and value '", "-32768", "'"],
     Event.updateValue 7 RETRO_DEVICE_INDEX_ANALOG_LEFT 1 (-32768)]
    7 RETRO_DEVICE_INDEX_ANALOG_LEFT 1 (-32768) rfl rfl (by decide)

/-! ## What one dispatched command can write -/

theorem connectCase_users {env : Env} {s s1 : Server} {command : Command} {evs : List Event}
    (h : connectCase env s command = .ok (s1, evs)) :
    s1.m_Users = s.m_Users ∨
      ∃ k user id, command.user_hdl = some k ∧ lock s.m_Users (some k) = some user ∧
        user.connectedEmu = "" ∧
        s1.m_Users = modifyUser k (fun u => { u with connectedEmu := id }) s.m_Users := by
  unfold connectCase at h
  split at h
  · simp only [Except.ok.injEq, Prod.mk.injEq] at h
    exact Or.inl (by rw [← h.1])
  · rename_i user hl
    split at h
    · simp only [Except.ok.injEq, Prod.mk.injEq] at h
      exact Or.inl (by rw [← h.1])
    · dsimp only at h
      split at h
      · simp only [Except.ok.injEq, Prod.mk.injEq] at h
        exact Or.inl (by rw [← h.1])
      · split at h
        · simp only [Except.ok.injEq, Prod.mk.injEq] at h
          exact Or.inl (by rw [← h.1])
        · rename_i hce
          split at h
          · simp at h
          · simp only [Except.ok.injEq, Prod.mk.injEq] at h
            cases hh : command.user_hdl with
            | none => rw [hh] at hl; simp [lock] at hl
            | some k =>
              rw [hh] at hl
              refine Or.inr ⟨k, user, command.params.headD "", rfl, hl, by simpa using hce, ?_⟩
              rw [← h.1, hh]
              rfl

/-- The frame of the dispatcher: a relation between an entry before and after
that holds of an untouched entry and of each of the six writes the handlers make
to the user of the caller holds, entry by entry, between the registry before and
after any command. -/
theorem dispatch_step {R : UserEntry → UserEntry → Prop} (hrefl : ∀ e, R e e)
    (hname : ∀ e n, R e { e with user := { e.user with username := n } })
    (hturn : ∀ e, R e { e with user := { e.user with requestedTurn := true } })
    (hconn : ∀ e id, e.user.connectedEmu = "" →
      R e { e with user := { e.user with connectedEmu := id } })
    (hgrant : ∀ e, e.user.adminAttempts < 3 →
      R e { e with user := { e.user with hasAdmin := true } })
    (hinc : ∀ e, e.user.adminAttempts < 3 →
      R e { e with user := { e.user with adminAttempts := e.user.adminAttempts + 1 } })
    (hpong : ∀ e t, R e { e with user := { e.user with lastPong := t } })
    {env : Env} {s s1 : Server} {command : Command} {evs : List Event}
    (hres : dispatch env s command = .ok (s1, evs)) :
    List.Forall₂ R s.m_Users s1.m_Users := by
  have hsame : ∀ {t : Server}, t = s → List.Forall₂ R s.m_Users t.m_Users := by
    intro t ht
    rw [ht]
    exact List.forall₂_same.mpr (fun x _ => hrefl x)
  have hok : ∀ {l : List Event}, (Except.ok (s, l) : Outcome) = .ok (s1, evs) →
      List.Forall₂ R s.m_Users s1.m_Users := by
    intro l hr
    simp only [Except.ok.injEq, Prod.mk.injEq] at hr
    exact hsame hr.1.symm
  unfold dispatch at hres
  cases hty : command.type <;> rw [hty] at hres <;> dsimp only at hres
  · exact hsame (listCase_users hres)
  · exact hsame (chatCase_users hres)
  · rcases usernameCase_renames hres with h | ⟨k, u, n, _, hl, _, h⟩
    · rw [h]; exact List.forall₂_same.mpr (fun x _ => hrefl x)
    · rw [h]; exact forall₂_modifyUser hrefl (fun e _ _ => hname e n) hl
  · rw [(buttonCase_outcome hres).1]
    exact List.forall₂_same.mpr (fun x _ => hrefl x)
  · rcases connectCase_users hres with h | ⟨k, u, id, _, hl, hce, h⟩
    · rw [h]; exact List.forall₂_same.mpr (fun x _ => hrefl x)
    · rw [h]
      exact forall₂_modifyUser hrefl (fun e _ heu => hconn e id (by rw [heu]; exact hce)) hl
  · unfold turnCase at hres
    split at hres
    · exact hok hres
    · split at hres
      · exact hok hres
      · rename_i user hl
        split at hres
        · exact hok hres
        · split at hres
          · simp only [Except.ok.injEq, Prod.mk.injEq] at hres
            rw [← hres.1]
            cases hh : command.user_hdl with
            | none => rw [hh] at hl; simp [lock] at hl
            | some k =>
              rw [hh] at hl
              exact forall₂_modifyUser hrefl (fun e _ _ => hturn e) hl
          · simp only [Except.ok.injEq, Prod.mk.injEq] at hres
            rw [← hres.1]
            exact List.forall₂_same.mpr (fun x _ => hrefl x)
  · exact hsame (addEmuCase_users hres)
  · unfold adminCase at hres
    split at hres
    · split at hres
      · exact hok hres
      · rename_i hguard
        split at hres
        · simp only [Except.ok.injEq, Prod.mk.injEq] at hres
          rw [← hres.1]
          exact List.forall₂_same.mpr (fun x _ => hrefl x)
        · rename_i user hl
          simp only [Except.ok.injEq, Prod.mk.injEq] at hres
          rw [← hres.1]
          have hlt : user.adminAttempts < 3 := by
            rw [hl] at hguard
            simpa [attemptsGuardBreaks] using hguard
          cases hh : command.user_hdl with
          | none => rw [hh] at hl; simp [lock] at hl
          | some k =>
            rw [hh] at hl
            refine forall₂_modifyUser hrefl (fun e _ heu => ?_) hl
            have hlt1 : e.user.adminAttempts < 3 := by rw [heu]; exact hlt
            split
            · exact hgrant e hlt1
            · exact hinc e hlt1
    · exact hok hres
  · exact hok hres
  · unfold pongCase at hres
    split at hres
    · exact hok hres
    · rename_i user hl
      simp only [Except.ok.injEq, Prod.mk.injEq] at hres
      rw [← hres.1]
      cases hh : command.user_hdl with
      | none => rw [hh] at hl; simp [lock] at hl
      | some k =>
        rw [hh] at hl
        exact forall₂_modifyUser hrefl (fun e _ _ => hpong e s.now) hl
  · exact hok hres
  · exact hok hres
  · exact hok hres
  · exact hok hres

theorem forall₂_forall_mem {R : UserEntry → UserEntry → Prop} {P Q : UserEntry → Prop}
    (hstep : ∀ a b, R a b → P a → Q b) :
    ∀ {l l1 : List UserEntry}, List.Forall₂ R l l1 → (∀ e ∈ l, P e) → ∀ e ∈ l1, Q e
  | _, _, .nil, _ => by simp
  | _, _, .cons hab ht, hl => by
    intro e he
    rcases List.mem_cons.mp he with rfl | he1
    · exact hstep _ _ hab (hl _ (List.mem_cons_self _ _))
    · exact forall₂_forall_mem hstep ht (fun x hx => hl x (List.mem_cons_of_mem _ hx)) e he1

/-! ## Admin dispatch -/

/-- C11. Admin lockout. From a state in which every user has
`adminAttempts <= 3`, every command that is dispatched to completion leaves every
user with `adminAttempts <= 3`; and an Admin command for a user with
`adminAttempts >= 3` completes with the state unchanged (neither `hasAdmin` nor
`adminAttempts` changes) and an empty trace (no reply), whatever the attempt
hashes to. -/
theorem admin_lockout (env : Env) (s : Server) (command : Command)
    (hinv : ∀ e ∈ s.m_Users, e.user.adminAttempts ≤ 3) :
    (∀ s1 evs, dispatch env s command = .ok (s1, evs) →
      ∀ e ∈ s1.m_Users, e.user.adminAttempts ≤ 3) ∧
    (∀ user, command.type = kCommandType.Admin →
      lock s.m_Users command.user_hdl = some user → 3 ≤ user.adminAttempts →
      dispatch env s command = .ok (s, [])) := by
  constructor
  · intro s1 evs hres
    have hstep : List.Forall₂
        (fun e e1 : UserEntry => e.user.adminAttempts ≤ 3 → e1.user.adminAttempts ≤ 3)
        s.m_Users s1.m_Users :=
      dispatch_step (fun _ h => h) (fun _ _ h => h) (fun _ h => h) (fun _ _ _ h => h)
        (fun _ _ h => h) (fun e hlt _ => Nat.succ_le_of_lt hlt) (fun _ _ h => h) hres
    exact forall₂_forall_mem (fun _ _ hab ha => hab ha) hstep hinv
  · intro user hty hu h3
    have hd : dispatch env s command = adminCase env s command := by
      unfold dispatch
      rw [hty]
    rw [hd]
    unfold adminCase
    split
    · have hg : attemptsGuardBreaks (lock s.m_Users command.user_hdl) = true := by
        rw [hu]
        simpa [attemptsGuardBreaks] using h3
      simp [hg]
    · rfl

/-- Witness for C11: `alice`, with three failed attempts, sends the right
password `pw`. -/
theorem admin_lockout_witness :
    (∀ s1 evs, dispatch exampleEnv exampleLockedServer (exampleCommand .Admin ["pw"] 1 "emu1")
        = .ok (s1, evs) → ∀ e ∈ s1.m_Users, e.user.adminAttempts ≤ 3) ∧
    (∀ user, (exampleCommand .Admin ["pw"] 1 "emu1").type = kCommandType.Admin →
      lock exampleLockedServer.m_Users (exampleCommand .Admin ["pw"] 1 "emu1").user_hdl
        = some user → 3 ≤ user.adminAttempts →
      dispatch exampleEnv exampleLockedServer (exampleCommand .Admin ["pw"] 1 "emu1")
        = .ok (exampleLockedServer, [])) :=
  admin_lockout exampleEnv exampleLockedServer (exampleCommand .Admin ["pw"] 1 "emu1")
    (by decide)

/-- C12. Admin postcondition. For an Admin command with the one parameter
`attempt` from a live user with `adminAttempts < 3`, with `salt` the configured
salt and `expected` the configured admin hash (each the value of its key when
that is a string, the default otherwise) and `h = md5(attempt ++ salt)`: dispatch
completes; if `h = expected` the user has `hasAdmin = true` and the same
`adminAttempts`, otherwise `adminAttempts` is one more and `hasAdmin` is the same;
the only frame sent is the reply `("admin", b)` to the caller, `b` being the
user's `hasAdmin` after the update; and every entry under another handle is
unchanged. -/
theorem admin_postcondition (env : Env) (s : Server) (command : Command) (attempt : String)
    (k : Nat) (user : LetsPlayUser) (salt expected : String)
    (hty : command.type = kCommandType.Admin) (hp : command.params = [attempt])
    (hh : command.user_hdl = some k) (hu : lock s.m_Users (some k) = some user)
    (hlt : user.adminAttempts < 3)
    (hsalt : ConfiguredString s.config.salt env.defaultConfig.salt salt)
    (hhash : ConfiguredString s.config.adminHash env.defaultConfig.adminHash expected) :
    ∃ s1 evs, dispatch env s command = .ok (s1, evs) ∧
      (env.md5 (attempt ++ salt) = expected →
        lock s1.m_Users (some k) = some { user with hasAdmin := true }) ∧
      (env.md5 (attempt ++ salt) ≠ expected →
        lock s1.m_Users (some k)
          = some { user with adminAttempts := user.adminAttempts + 1 }) ∧
      sends evs = [(command.hdl, env.encode [.str "admin",
        .bool (if env.md5 (attempt ++ salt) = expected then true else user.hasAdmin)])] ∧
      List.Forall₂ (fun e e1 : UserEntry => e1.hdl = e.hdl ∧ (e.hdl ≠ k → e1 = e))
        s.m_Users s1.m_Users := by
  have hg : attemptsGuardBreaks (some user) = false := by
    simpa [attemptsGuardBreaks] using hlt
  have hs := stringOr_of_configured hsalt
  have he := stringOr_of_configured hhash
  have hd : dispatch env s command = adminCase env s command := by
    unfold dispatch
    rw [hty]
  have hout : dispatch env s command = .ok
      ({ s with
          config := repairSalt env s.config,
          m_Users := (modifyUser k
            (fun u => if (env.md5 (attempt ++ salt) == expected) = true
                      then { u with hasAdmin := true }
                      else { u with adminAttempts := u.adminAttempts + 1 }) s.m_Users) },
       [Event.log [salt, " ", expected, " ", env.md5 (attempt ++ salt)]] ++
        BroadcastOne (env.encode [.str "admin",
          .bool (if (env.md5 (attempt ++ salt) == expected) = true then true
                 else user.hasAdmin)])
          command.hdl) := by
    rw [hd]
    unfold adminCase
    simp only [hp, hh, hu, hg, Bool.false_eq_true, if_false, hs, he]
    rfl
  refine ⟨_, _, hout, ?_, ?_, ?_, ?_⟩
  · intro hm
    rw [lock_modifyUser hu]
    simp [hm]
  · intro hm
    rw [lock_modifyUser hu]
    simp [hm]
  · by_cases hm : env.md5 (attempt ++ salt) = expected
    · simp [sends, BroadcastOne, hm]
    · simp [sends, BroadcastOne, hm]
  · exact forall₂_modifyUser (fun e => ⟨rfl, fun _ => rfl⟩)
      (fun e hek _ => ⟨rfl, fun hne => absurd hek hne⟩) hu

/-- Witness for C12: under the configured salt `s` and the configured hash of
`pw` with that salt, `alice` sends `pw` and is granted admin; with the default
salt and hash (both empty) the attempt would have failed. -/
theorem admin_postcondition_witness :
    exampleSaltedServer.config.salt = JsonValue.string "s" ∧
    exampleSaltedServer.config.adminHash = JsonValue.string "md5:pws" ∧
    ∃ s1 evs, dispatch exampleEnv exampleSaltedServer (exampleCommand .Admin ["pw"] 1 "emu1")
        = .ok (s1, evs) ∧
      lock s1.m_Users (some 1)
        = some { exampleUser "uuid-a" "alice" "emu1" with hasAdmin := true } ∧
      sends evs = [(some 1, "admin true")] := by
  refine ⟨rfl, rfl, ?_⟩
  obtain ⟨s1, evs, h1, h2, _, h4, _⟩ :=
    admin_postcondition exampleEnv exampleSaltedServer (exampleCommand .Admin ["pw"] 1 "emu1")
      "pw" 1 (exampleUser "uuid-a" "alice" "emu1") "s" "md5:pws" rfl rfl rfl rfl (by decide)
      (Or.inl rfl) (Or.inl rfl)
  exact ⟨s1, evs, h1, h2 (by decide), h4⟩

/-! ## AddEmu dispatch -/

/-- C13 (counterexample). The command `Run` queues at start-up has no user: its
weak reference resolves to nobody, and dispatch spawns the emulator thread. -/
theorem addEmu_without_user_spawns :
    lock exampleServer.m_Users bootstrapCommand.user_hdl = none ∧
    dispatch exampleEnv exampleServer bootstrapCommand =
      .ok (exampleServer, [Event.spawnEmulator "./core" "./rom" "emu1"]) :=
  ⟨rfl, rfl⟩

/-- The outcomes of the AddEmu case in terms of its guard. -/
theorem addEmuCase_outcome (env : Env) (s : Server) (command : Command)
    (hty : command.type = kCommandType.AddEmu) :
    ∃ evs, dispatch env s command = .ok (s, evs) ∧
      ((∃ corePath romPath id, Event.spawnEmulator corePath romPath id ∈ evs) ↔
        ((∃ id corePath romPath, command.params = [id, corePath, romPath]) ∧
          ∀ user, lock s.m_Users command.user_hdl = some user → user.hasAdmin = true)) ∧
      (∀ user, lock s.m_Users command.user_hdl = some user → user.hasAdmin = false →
        evs = []) := by
  have hd : dispatch env s command = addEmuCase env s command := by
    unfold dispatch
    rw [hty]
  rw [hd]
  unfold addEmuCase
  split
  · rename_i id corePath romPath hp
    cases hl : lock s.m_Users command.user_hdl with
    | none =>
      refine ⟨_, by simp only [adminGuardBreaks]; rfl, ?_, ?_⟩
      · constructor
        · intro _
          exact ⟨⟨id, corePath, romPath, hp⟩, fun user hu => Option.noConfusion hu⟩
        · intro _
          exact ⟨corePath, romPath, id, List.mem_singleton.mpr rfl⟩
      · intro user hu
        exact Option.noConfusion hu
    | some user =>
      by_cases ha : user.hasAdmin = true
      · refine ⟨[Event.spawnEmulator corePath romPath id], by simp [adminGuardBreaks, ha], ?_, ?_⟩
        · constructor
          · intro _
            refine ⟨⟨id, corePath, romPath, hp⟩, fun u hu => ?_⟩
            rw [Option.some.injEq] at hu
            rw [← hu]; exact ha
          · intro _
            exact ⟨corePath, romPath, id, List.mem_singleton.mpr rfl⟩
        · intro u hu hf
          rw [Option.some.injEq] at hu
          rw [← hu, ha] at hf
          exact Bool.noConfusion hf
      · refine ⟨[], by simp [adminGuardBreaks, ha], ?_, fun _ _ _ => rfl⟩
        constructor
        · rintro ⟨_, _, _, hm⟩
          exact absurd hm (List.not_mem_nil _)
        · rintro ⟨_, hall⟩
          exact absurd (hall user rfl) ha
  · rename_i hp
    refine ⟨[], rfl, ?_, fun _ _ _ => rfl⟩
    constructor
    · rintro ⟨_, _, _, hm⟩
      exact absurd hm (List.not_mem_nil _)
    · rintro ⟨⟨id, c, r, h⟩, _⟩
      exact absurd h (hp id c r)

/-- C13 (amended). For an AddEmu command that carries no user reference at all
(the empty handle of the bootstrap command `Run` queues) or whose user reference
resolves, the state is unchanged and an emulator thread is spawned exactly when
the command has three parameters and either carries no user reference or its
user has `hasAdmin = true`; a command whose user resolves and has
`hasAdmin = false` issues nothing. -/
theorem addEmu_requires_admin_unless_no_user (env : Env) (s : Server) (command : Command)
    (hty : command.type = kCommandType.AddEmu)
    (hlive : command.user_hdl = none ∨
      ∃ user, lock s.m_Users command.user_hdl = some user) :
    ∃ evs, dispatch env s command = .ok (s, evs) ∧
      ((∃ corePath romPath id, Event.spawnEmulator corePath romPath id ∈ evs) ↔
        ((∃ id corePath romPath, command.params = [id, corePath, romPath]) ∧
          (command.user_hdl = none ∨
            ∃ user, lock s.m_Users command.user_hdl = some user ∧ user.hasAdmin = true))) ∧
      (∀ user, lock s.m_Users command.user_hdl = some user → user.hasAdmin = false →
        evs = []) := by
  obtain ⟨evs, hd, hiff, hno⟩ := addEmuCase_outcome env s command hty
  refine ⟨evs, hd, ?_, hno⟩
  rw [hiff]
  constructor
  · rintro ⟨hp, hall⟩
    refine ⟨hp, ?_⟩
    rcases hlive with hnone | ⟨user, hu⟩
    · exact Or.inl hnone
    · exact Or.inr ⟨user, hu, hall user hu⟩
  · rintro ⟨hp, hcase⟩
    refine ⟨hp, fun user hu => ?_⟩
    rcases hcase with hnone | ⟨u, hu1, ha⟩
    · rw [hnone] at hu
      simp [lock] at hu
    · rw [hu1, Option.some.injEq] at hu
      rw [← hu]
      exact ha

/-- Witness for C13: `alice`, who is not an admin, sends `add emu3 ./core ./rom`
and nothing is spawned. -/
theorem addEmu_requires_admin_unless_no_user_witness :
    dispatch exampleEnv exampleServer
      (exampleCommand .AddEmu ["emu3", "./core", "./rom"] 1 "emu1") = .ok (exampleServer, []) := by
  obtain ⟨evs, hd, _, hno⟩ :=
    addEmu_requires_admin_unless_no_user exampleEnv exampleServer
      (exampleCommand .AddEmu ["emu3", "./core", "./rom"] 1 "emu1") rfl
      (Or.inr ⟨exampleUser "uuid-a" "alice" "emu1", rfl⟩)
  rw [hno (exampleUser "uuid-a" "alice" "emu1") rfl rfl] at hd
  exact hd

/-! ## The ingress handler -/

/-- C14 (counterexample). `alice`, an admin, sends `shutdown now`: the message
carries a further field and the shutdown sequence is started all the same. -/
theorem shutdown_with_a_parameter_is_initiated :
    exampleEnv.decode "shutdown now" = ["shutdown", "now"] ∧
    exampleAdminProcess.shuttingdown = false ∧
    (OnMessage exampleEnv exampleAdminProcess 1 "shutdown now").1.shuttingdown = true ∧
    (OnMessage exampleEnv exampleAdminProcess 1 "shutdown now").1.m_QueueThreadRunning = false ∧
    Event.stopListening ∈ (OnMessage exampleEnv exampleAdminProcess 1 "shutdown now").2 := by
  refine ⟨rfl, rfl, rfl, rfl, ?_⟩
  decide

theorem commandType_shutdown : commandType "shutdown" = some kCommandType.Shutdown := by
  decide

theorem workerStops_fields (q : Process) :
    (workerStops q).shuttingdown = q.shuttingdown ∧
    (workerStops q).m_QueueThreadRunning = q.m_QueueThreadRunning ∧
    (workerStops q).state = q.state := by
  unfold workerStops
  split
  · exact ⟨rfl, rfl, rfl⟩
  · exact ⟨rfl, rfl, rfl⟩

theorem stopListening_mem_shutdown (p : Process) (h : p.shuttingdown = false) :
    Event.stopListening ∈ (Shutdown p).2 ∧ (Shutdown p).1.shuttingdown = true := by
  unfold Shutdown
  rw [if_neg (by simp [h])]
  refine ⟨by simp, ?_⟩
  show (workerStops (postSentinel p)).shuttingdown = true
  rw [(workerStops_fields (postSentinel p)).1]
  rfl

/-- C14 (amended). For a client message whose first field is `shutdown`, received
while no shutdown is under way, the shutdown sequence is started (the latch is
set, `stop_listening` is called) exactly when the sender is a registered user
with `hasAdmin = true`, whatever further fields the message carries; a message
from a non-admin or from an unregistered handle starts nothing. -/
theorem shutdown_requires_admin_only (env : Env) (p : Process) (hdl : Nat) (data : String)
    (params : List String) (hdec : env.decode data = "shutdown" :: params)
    (hfresh : p.shuttingdown = false) :
    ((OnMessage env p hdl data).1.shuttingdown = true ↔
      ∃ user, lock p.state.m_Users (some hdl) = some user ∧ user.hasAdmin = true) ∧
    (Event.stopListening ∈ (OnMessage env p hdl data).2 ↔
      ∃ user, lock p.state.m_Users (some hdl) = some user ∧ user.hasAdmin = true) := by
  unfold OnMessage
  simp only [hdec, commandType_shutdown]
  cases hl : lock p.state.m_Users (some hdl) with
  | none =>
    simp [enqueue, hfresh]
  | some user =>
    by_cases ha : user.hasAdmin = true
    · obtain ⟨h1, h2⟩ := stopListening_mem_shutdown p hfresh
      simp [enqueue, ha, h1, h2]
    · have hf : user.hasAdmin = false := by simpa using ha
      simp [hf, hfresh]

/-- Witness for C14: `alice`, who is not an admin, sends `shutdown`. -/
theorem shutdown_requires_admin_only_witness :
    ((OnMessage exampleEnv exampleProcess 1 "shutdown").1.shuttingdown = true ↔
      ∃ user, lock exampleProcess.state.m_Users (some 1) = some user ∧ user.hasAdmin = true) ∧
    (Event.stopListening ∈ (OnMessage exampleEnv exampleProcess 1 "shutdown").2 ↔
      ∃ user, lock exampleProcess.state.m_Users (some 1) = some user ∧ user.hasAdmin = true) :=
  shutdown_requires_admin_only exampleEnv exampleProcess 1 "shutdown" [] rfl rfl

/-- C15 (the code at the failing input). `alice` answers a ping with `pong`: the
chain of comparisons of `OnMessage` has no branch for `pong`, so the handler
returns without queueing a command; the process is unchanged. -/
theorem pong_message_is_not_enqueued :
    exampleEnv.decode "pong" = ["pong"] ∧ commandType "pong" = none ∧
    OnMessage exampleEnv exampleProcess 1 "pong" = (exampleProcess, []) := by
  exact ⟨rfl, by decide, rfl⟩

/-! ## List and Turn dispatch -/

/-- C16 (counterexample). `alice`, the only member of `emu1`, asks for the list:
the reply enumerates `alice` herself. -/
theorem list_reply_names_the_caller :
    dispatch exampleEnv exampleServer (exampleCommand .List [] 1 "emu1") =
      .ok (exampleServer,
        [Event.log ["uuid-a", " (", "alice", ") requested a user list."],
         Event.send (some 1) "list alice" Opcode.text]) := by
  rfl

/-- C16 (amended). A List command with no parameters from a live user `c` leaves
the state unchanged and sends exactly one frame, to the caller: `encode` of
`"list"` followed by the usernames, in registry order, of exactly those registered
users whose `connectedEmu` equals that of `c` and whose handle has not expired;
the caller is one of them when the handle of its entry has not expired. -/
theorem list_reply (env : Env) (s : Server) (command : Command) (c : LetsPlayUser)
    (hty : command.type = kCommandType.List) (hp : command.params = [])
    (hu : lock s.m_Users command.user_hdl = some c) :
    ∃ evs, dispatch env s command = .ok (s, evs) ∧
      sends evs = [(command.hdl,
        env.encode (Arg.str "list" ::
          ((s.m_Users.filter
              (fun e => c.connectedEmu == e.user.connectedEmu && !e.expired)).map
            (fun e => Arg.str e.user.username))))] ∧
      (∀ e ∈ s.m_Users,
        (e ∈ s.m_Users.filter (fun e => c.connectedEmu == e.user.connectedEmu && !e.expired) ↔
          (e.user.connectedEmu = c.connectedEmu ∧ e.expired = false))) ∧
      (∀ e ∈ s.m_Users, e.user = c → e.expired = false →
        e ∈ s.m_Users.filter (fun e => c.connectedEmu == e.user.connectedEmu && !e.expired)) := by
  have hd : dispatch env s command = listCase env s command := by
    unfold dispatch
    rw [hty]
  have hout : dispatch env s command = .ok (s,
      [Event.log [c.uuid, " (", c.username, ") requested a user list."]]
      ++ BroadcastOne
          (env.encode (Arg.str "list" ::
            ((s.m_Users.filter
                (fun e => c.connectedEmu == e.user.connectedEmu && !e.expired)).map
              (fun e => Arg.str e.user.username))))
          command.hdl) := by
    rw [hd]
    unfold listCase
    simp only [hp, hu, List.isEmpty_nil, Bool.not_true, Bool.false_eq_true, if_false]
  refine ⟨_, hout, ?_, ?_, ?_⟩
  · simp [sends, BroadcastOne]
  · intro e he
    simp only [List.mem_filter, he, true_and, Bool.and_eq_true, beq_iff_eq, Bool.not_eq_true']
    constructor
    · rintro ⟨h1, h2⟩
      exact ⟨h1.symm, h2⟩
    · rintro ⟨h1, h2⟩
      exact ⟨h1.symm, h2⟩
  · intro e he heq hexp
    simp [List.mem_filter, he, heq, hexp]

/-- Witness for C16: `alice` asks for the list of `emu1`. -/
theorem list_reply_witness :
    ∃ evs, dispatch exampleEnv exampleServer (exampleCommand .List [] 1 "emu1")
        = .ok (exampleServer, evs) ∧
      sends evs = [(some 1,
        exampleEnv.encode (Arg.str "list" ::
          ((exampleServer.m_Users.filter
              (fun e => "emu1" == e.user.connectedEmu && !e.expired)).map
            (fun e => Arg.str e.user.username))))] ∧
      (∀ e ∈ exampleServer.m_Users,
        (e ∈ exampleServer.m_Users.filter
            (fun e => "emu1" == e.user.connectedEmu && !e.expired) ↔
          (e.user.connectedEmu = "emu1" ∧ e.expired = false))) ∧
      (∀ e ∈ exampleServer.m_Users, e.user = exampleUser "uuid-a" "alice" "emu1" →
        e.expired = false →
        e ∈ exampleServer.m_Users.filter
          (fun e => "emu1" == e.user.connectedEmu && !e.expired)) :=
  list_reply exampleEnv exampleServer (exampleCommand .List [] 1 "emu1")
    (exampleUser "uuid-a" "alice" "emu1") rfl rfl rfl

/-- C17 (the code at the failing input). `bob` is a member of `emu1` when his Turn
command is dispatched, but the command carries the session snapshot `OnMessage`
took before his Connect was dispatched, the empty string: the handler looks up
`m_Emus[""]`, which inserts a null entry, finds no session, and neither sets
`requestedTurn` nor calls `addTurnRequest`. -/
theorem turn_uses_the_ingress_snapshot :
    lock exampleJoinedServer.m_Users (some 2) = some (exampleUser "uuid-b" "bob" "emu1") ∧
    emuFound exampleJoinedServer.m_Emus "emu1" = true ∧
    dispatch exampleEnv exampleJoinedServer (exampleCommand .Turn [] 2 "") =
      .ok ({ exampleJoinedServer with
              m_Emus := [("emu1", some 7), ("emu2", some 8), ("", none)] },
        [Event.log ["uuid-b", " (", "bob", ") requested a turn.user->requestedTurn: ", "0",
           " user->connectedEmu: ", "emu1"]]) := by
  exact ⟨rfl, rfl, rfl⟩

/-! ## Turn exclusivity -/

theorem forall₂_mem_right {R : UserEntry → UserEntry → Prop} :
    ∀ {l l1 : List UserEntry}, List.Forall₂ R l l1 → ∀ b ∈ l1, ∃ a ∈ l, R a b
  | _, _, .nil, b, hb => absurd hb (List.not_mem_nil _)
  | _, _, .cons hab ht, b, hb => by
    rcases List.mem_cons.mp hb with rfl | hb1
    · exact ⟨_, List.mem_cons_self _ _, hab⟩
    · obtain ⟨a, ha, hr⟩ := forall₂_mem_right ht b hb1
      exact ⟨a, List.mem_cons_of_mem _ ha, hr⟩

theorem pairwise_of_forall₂ {R P P1 : UserEntry → UserEntry → Prop}
    (hstep : ∀ a b a1 b1, R a a1 → R b b1 → P a b → P1 a1 b1) :
    ∀ {l l1 : List UserEntry}, List.Forall₂ R l l1 → l.Pairwise P → l1.Pairwise P1
  | _, _, .nil, _ => List.Pairwise.nil
  | _, _, .cons hab ht, hp => by
    rw [List.pairwise_cons] at hp ⊢
    refine ⟨fun b1 hb1 => ?_, pairwise_of_forall₂ hstep ht hp.2⟩
    obtain ⟨b, hb, hr⟩ := forall₂_mem_right ht b1 hb1
    exact hstep _ _ _ _ hab hr (hp.1 b hb)

/-- The dispatcher never writes `hasTurn` and never changes a non-empty
`connectedEmu`. -/
theorem dispatch_keeps_turns {env : Env} {s s1 : Server} {command : Command}
    {evs : List Event} (hres : dispatch env s command = .ok (s1, evs)) :
    List.Forall₂
      (fun e e1 : UserEntry => e1.user.hasTurn = e.user.hasTurn ∧
        (e.user.connectedEmu ≠ "" → e1.user.connectedEmu = e.user.connectedEmu))
      s.m_Users s1.m_Users :=
  dispatch_step (fun _ => ⟨rfl, fun _ => rfl⟩) (fun _ _ => ⟨rfl, fun _ => rfl⟩)
    (fun _ => ⟨rfl, fun _ => rfl⟩) (fun _ _ he => ⟨rfl, fun hne => absurd he hne⟩)
    (fun _ _ => ⟨rfl, fun _ => rfl⟩) (fun _ _ => ⟨rfl, fun _ => rfl⟩)
    (fun _ _ => ⟨rfl, fun _ => rfl⟩) hres

theorem dispatch_keeps_turn_invariant {env : Env} {s s1 : Server} {command : Command}
    {evs : List Event} (hres : dispatch env s command = .ok (s1, evs))
    (hex : TurnExclusive s.m_Users) (hin : HoldersInSession s.m_Users) :
    TurnExclusive s1.m_Users ∧ HoldersInSession s1.m_Users := by
  have hstep := dispatch_keeps_turns hres
  constructor
  · unfold TurnExclusive at hex ⊢
    have hboth : s.m_Users.Pairwise (fun a b =>
        (a ∈ s.m_Users ∧ b ∈ s.m_Users) ∧
          (a.user.hasTurn = true → b.user.hasTurn = true → a.user.connectedEmu ≠ "" →
            a.user.connectedEmu ≠ b.user.connectedEmu)) := by
      rw [List.pairwise_iff_forall_sublist] at hex ⊢
      intro a b hsub
      refine ⟨⟨hsub.subset (List.mem_cons_self _ _), hsub.subset ?_⟩, hex hsub⟩
      exact List.mem_cons_of_mem _ (List.mem_singleton.mpr rfl)
    refine pairwise_of_forall₂ ?_ hstep hboth
    intro a b a1 b1 hra hrb hab ha1 hb1 _
    have hta : a.user.hasTurn = true := by rw [← hra.1]; exact ha1
    have htb : b.user.hasTurn = true := by rw [← hrb.1]; exact hb1
    have hna := hin a hab.1.1 hta
    have hnb := hin b hab.1.2 htb
    rw [hra.2 hna, hrb.2 hnb]
    exact hab.2 hta htb hna
  · unfold HoldersInSession at hin ⊢
    intro e1 he1 ht1
    obtain ⟨e, he, hr⟩ := forall₂_mem_right hstep e1 he1
    have hte : e.user.hasTurn = true := by rw [← hr.1]; exact ht1
    have hne := hin e he hte
    rw [hr.2 hne]
    exact hne

theorem afterCallbacks_invariant (Inv : List UserEntry → Prop)
    {callback : Event → List UserEntry → List UserEntry}
    (hcb : ∀ ev users, Inv users → Inv (callback ev users)) :
    ∀ (evs : List Event) (users : List UserEntry), Inv users →
      Inv (afterCallbacks callback evs users) := by
  intro evs users
  unfold afterCallbacks
  generalize evs.filter isArbiterCall = calls
  induction calls generalizing users with
  | nil => exact fun h => h
  | cons ev rest ih =>
    intro h
    rw [List.foldl_cons]
    exact ih _ (hcb ev users h)

/-- C18 (counterexample). In a state in which no session has two turn holders,
but `bob`, who is in no session, is marked as a holder, `bob` connects to `emu1`,
whose turn `alice` holds: afterwards `emu1` has two users with `hasTurn`, also
after an arbiter callback that leaves the users alone. -/
theorem stray_holder_breaks_turn_exclusivity :
    TurnExclusive exampleStrayHolderServer.m_Users ∧
    dispatch exampleEnv exampleStrayHolderServer (exampleCommand .Connect ["emu1"] 2 "") =
      .ok ({ exampleStrayHolderServer with
              m_Users :=
                [⟨1, false, { exampleUser "uuid-a" "alice" "emu1" with hasTurn := true }⟩,
                 ⟨2, false, { exampleUser "uuid-b" "bob" "emu1" with hasTurn := true }⟩] },
        [Event.send (some 1) "join bob" Opcode.text,
         Event.userConnected 7 (some 2),
         Event.send (some 2) "connect true" Opcode.text,
         Event.log ["uuid-b", " (", "bob", ") connected to ", "emu1"],
         Event.send (some 2) "emuinfo 3 16 255 emu1" Opcode.text]) ∧
    ¬ TurnExclusive
        [⟨1, false, { exampleUser "uuid-a" "alice" "emu1" with hasTurn := true }⟩,
         ⟨2, false, { exampleUser "uuid-b" "bob" "emu1" with hasTurn := true }⟩] ∧
    ¬ TurnExclusive (afterCallbacks (fun _ users => users)
        [Event.send (some 1) "join bob" Opcode.text,
         Event.userConnected 7 (some 2),
         Event.send (some 2) "connect true" Opcode.text,
         Event.log ["uuid-b", " (", "bob", ") connected to ", "emu1"],
         Event.send (some 2) "emuinfo 3 16 255 emu1" Opcode.text]
        [⟨1, false, { exampleUser "uuid-a" "alice" "emu1" with hasTurn := true }⟩,
         ⟨2, false, { exampleUser "uuid-b" "bob" "emu1" with hasTurn := true }⟩]) := by
  refine ⟨?_, rfl, ?_, ?_⟩
  · unfold TurnExclusive
    decide
  · unfold TurnExclusive
    decide
  · unfold TurnExclusive afterCallbacks
    decide

/-- C18 (amended). The dispatcher never writes `hasTurn`. From a state in which
every session has at most one user with `hasTurn` and every user with `hasTurn`
is a member of a session, for every command that is dispatched to completion,
and arbiter callbacks (`addTurnRequest`, `userConnected`) that preserve these two
properties, the state after dispatch and callbacks has them again. -/
theorem dispatcher_preserves_turn_exclusivity (env : Env) (s s1 : Server) (command : Command)
    (evs : List Event) (callback : Event → List UserEntry → List UserEntry)
    (hcb : ∀ ev users, TurnExclusive users ∧ HoldersInSession users →
      TurnExclusive (callback ev users) ∧ HoldersInSession (callback ev users))
    (hex : TurnExclusive s.m_Users) (hin : HoldersInSession s.m_Users)
    (hres : dispatch env s command = .ok (s1, evs)) :
    List.Forall₂ (fun e e1 : UserEntry => e1.user.hasTurn = e.user.hasTurn)
      s.m_Users s1.m_Users ∧
    TurnExclusive (afterCallbacks callback evs s1.m_Users) ∧
    HoldersInSession (afterCallbacks callback evs s1.m_Users) := by
  refine ⟨(dispatch_keeps_turns hres).imp (fun _ _ h => h.1), ?_⟩
  exact afterCallbacks_invariant (fun users => TurnExclusive users ∧ HoldersInSession users)
    hcb evs s1.m_Users (dispatch_keeps_turn_invariant hres hex hin)

/-- Witness for C18: `alice`, who holds the turn of `emu1`, asks for a turn again;
the arbiter callback of the example leaves the users alone. -/
theorem dispatcher_preserves_turn_exclusivity_witness :
    List.Forall₂ (fun e e1 : UserEntry => e1.user.hasTurn = e.user.hasTurn)
      exampleTurnServer.m_Users
      [⟨1, false, { exampleUser "uuid-a" "alice" "emu1" with
                      hasTurn := true, requestedTurn := true }⟩,
       ⟨2, false, exampleUser "uuid-b" "" ""⟩] ∧
    TurnExclusive (afterCallbacks (fun _ users => users)
      [Event.log ["uuid-a", " (", "alice", ") requested a turn.user->requestedTurn: ", "0",
         " user->connectedEmu: ", "emu1"],
       Event.addTurnRequest 7 (some 1)]
      [⟨1, false, { exampleUser "uuid-a" "alice" "emu1" with
                      hasTurn := true, requestedTurn := true }⟩,
       ⟨2, false, exampleUser "uuid-b" "" ""⟩]) ∧
    HoldersInSession (afterCallbacks (fun _ users => users)
      [Event.log ["uuid-a", " (", "alice", ") requested a turn.user->requestedTurn: ", "0",
         " user->connectedEmu: ", "emu1"],
       Event.addTurnRequest 7 (some 1)]
      [⟨1, false, { exampleUser "uuid-a" "alice" "emu1" with
                      hasTurn := true, requestedTurn := true }⟩,
       ⟨2, false, exampleUser "uuid-b" "" ""⟩]) :=
  dispatcher_preserves_turn_exclusivity exampleEnv exampleTurnServer
    { exampleTurnServer with
      m_Users := [⟨1, false, { exampleUser "uuid-a" "alice" "emu1" with
                                hasTurn := true, requestedTurn := true }⟩,
                  ⟨2, false, exampleUser "uuid-b" "" ""⟩] }
    (exampleCommand .Turn [] 1 "emu1") _ (fun _ users => users) (fun _ _ h => h)
    (by unfold TurnExclusive; decide) (by unfold HoldersInSession; decide) rfl

/-! ## Escaped size -/

theorem escapeLen_of_ne_backslash {b : Char} (hb : b.toNat ≠ 92) (rest : List Char) :
    escapeLen (b :: rest) = none := by
  cases rest with
  | nil => rfl
  | cons k t => simp [escapeLen, hb]

theorem escapedSizeAux_of_no_backslash :
    ∀ l : List Char, (∀ c ∈ l, c.toNat ≠ 92) → escapedSizeAux 0 l = l.length
  | [], _ => rfl
  | c :: cs, h => by
    unfold escapedSizeAux
    rw [escapeLen_of_ne_backslash (h c (List.mem_cons_self _ _))]
    simp only
    rw [escapedSizeAux_of_no_backslash cs (fun x hx => h x (List.mem_cons_of_mem _ hx))]
    simp [Nat.add_comm]

theorem escapedSizeAux_le : ∀ (l : List Char) (skip : Nat), escapedSizeAux skip l ≤ l.length
  | [], skip => by simp [escapedSizeAux]
  | c :: cs, 0 => by
    unfold escapedSizeAux
    split
    · rename_i n _
      have := escapedSizeAux_le cs (n - 1)
      simp only [List.length_cons]
      omega
    · have := escapedSizeAux_le cs 0
      simp only [List.length_cons]
      omega
  | c :: cs, skip + 1 => by
    unfold escapedSizeAux
    have := escapedSizeAux_le cs skip
    simp only [List.length_cons]
    omega

theorem escapedSizeAux_append_of_no_backslash :
    ∀ (a r : List Char), (∀ c ∈ a, c.toNat ≠ 92) →
      escapedSizeAux 0 (a ++ r) = a.length + escapedSizeAux 0 r
  | [], r, _ => by simp
  | c :: cs, r, h => by
    have hstep : escapedSizeAux 0 (c :: (cs ++ r)) = 1 + escapedSizeAux 0 (cs ++ r) := by
      simp only [escapedSizeAux, escapeLen_of_ne_backslash (h c (List.mem_cons_self _ _))]
    rw [List.cons_append, hstep, escapedSizeAux_append_of_no_backslash cs r
      (fun x hx => h x (List.mem_cons_of_mem _ hx))]
    simp only [List.length_cons]
    omega

theorem escapedSizeAux_x (h1 h2 : Char) (b : List Char) (a1 : isHexLower h1 = true)
    (a2 : isHexLower h2 = true) :
    escapedSizeAux 0 (Char.ofNat 92 :: 'x' :: h1 :: h2 :: b) = 1 + escapedSizeAux 0 b := by
  simp [escapedSizeAux, escapeLen, hexRun, a1, a2]

theorem escapedSizeAux_u (h1 h2 h3 h4 : Char) (b : List Char) (a1 : isHexLower h1 = true)
    (a2 : isHexLower h2 = true) (a3 : isHexLower h3 = true) (a4 : isHexLower h4 = true) :
    escapedSizeAux 0 (Char.ofNat 92 :: 'u' :: h1 :: h2 :: h3 :: h4 :: b)
      = 1 + escapedSizeAux 0 b := by
  simp [escapedSizeAux, escapeLen, hexRun, a1, a2, a3, a4]

/-- C21. `escapedSize` counts one per escape and one per ordinary character: for
strings `a` and `b` without a backslash and an escape `e` that is backslash, `x`
and two digits from `0-9a-f`, or backslash, `u` and four such digits,
`escapedSize(a ++ e ++ b) = |a| + 1 + |b|`; `escapedSize(s) = |s|` for a string
without a backslash, `escapedSize(s) <= |s|` for every string, and the escaped
size of `hello` followed by the escape `u0041` is 6. -/
theorem escapedSize_one_per_escape (a b : String) (h1 h2 h3 h4 : Char)
    (ha : ∀ c ∈ a.data, c.toNat ≠ 92) (hb : ∀ c ∈ b.data, c.toNat ≠ 92)
    (a1 : isHexLower h1 = true) (a2 : isHexLower h2 = true) (a3 : isHexLower h3 = true)
    (a4 : isHexLower h4 = true) :
    escapedSize (a ++ String.mk [Char.ofNat 92, 'x', h1, h2] ++ b) = a.length + 1 + b.length ∧
    escapedSize (a ++ String.mk [Char.ofNat 92, 'u', h1, h2, h3, h4] ++ b)
      = a.length + 1 + b.length ∧
    escapedSize a = a.length ∧
    (∀ s : String, escapedSize s ≤ s.length) ∧
    escapedSize "hello\\u0041" = 6 := by
  refine ⟨?_, ?_, ?_, ?_, by decide⟩
  · unfold escapedSize
    simp only [String.data_append, List.append_assoc, List.cons_append, List.nil_append]
    rw [escapedSizeAux_append_of_no_backslash _ _ ha, escapedSizeAux_x h1 h2 _ a1 a2,
      escapedSizeAux_of_no_backslash _ hb]
    simp only [String.length]
    omega
  · unfold escapedSize
    simp only [String.data_append, List.append_assoc, List.cons_append, List.nil_append]
    rw [escapedSizeAux_append_of_no_backslash _ _ ha, escapedSizeAux_u h1 h2 h3 h4 _ a1 a2 a3 a4,
      escapedSizeAux_of_no_backslash _ hb]
    simp only [String.length]
    omega
  · unfold escapedSize
    rw [escapedSizeAux_of_no_backslash _ ha]
    rfl
  · intro s
    exact escapedSizeAux_le s.data 0

/-- Witness for C21: `a = "hello"`, the digits `0`, `0`, `4`, `1`, `b = " you"`. -/
theorem escapedSize_one_per_escape_witness :
    escapedSize ("hello" ++ String.mk [Char.ofNat 92, 'x', '0', '0'] ++ " you")
      = "hello".length + 1 + " you".length ∧
    escapedSize ("hello" ++ String.mk [Char.ofNat 92, 'u', '0', '0', '4', '1'] ++ " you")
      = "hello".length + 1 + " you".length ∧
    escapedSize "hello" = "hello".length ∧
    (∀ s : String, escapedSize s ≤ s.length) ∧
    escapedSize "hello\\u0041" = 6 :=
  escapedSize_one_per_escape "hello" " you" '0' '0' '4' '1' (by decide) (by decide) (by decide)
    (by decide) (by decide) (by decide)

/-! ## Arity violations -/

/-- C22. Arity violations are silently dropped: a command of kind Chat, Username
or Admin whose parameter count is not 1, of kind List or Turn whose parameter
count is not 0, of kind Button or AddEmu whose parameter count is not 3, and every
command of kind RemoveEmu, StopEmu, Config or Unknown is dispatched with the
state (user registry, session registry, configuration) unchanged and an empty
trace: no frame sent, nothing spawned, no input routed. -/
theorem arity_violation_is_dropped (env : Env) (s : Server) (command : Command)
    (h : ((command.type = kCommandType.Chat ∨ command.type = kCommandType.Username ∨
            command.type = kCommandType.Admin) ∧ command.params.length ≠ 1) ∨
         ((command.type = kCommandType.List ∨ command.type = kCommandType.Turn) ∧
            command.params.length ≠ 0) ∨
         ((command.type = kCommandType.Button ∨ command.type = kCommandType.AddEmu) ∧
            command.params.length ≠ 3) ∨
         (command.type = kCommandType.RemoveEmu ∨ command.type = kCommandType.StopEmu ∨
            command.type = kCommandType.Config ∨ command.type = kCommandType.Unknown)) :
    dispatch env s command = .ok (s, []) := by
  unfold dispatch
  rcases h with ⟨ht | ht | ht, hp⟩ | ⟨ht | ht, hp⟩ | ⟨ht | ht, hp⟩ | ht | ht | ht | ht <;>
    rw [ht] <;> dsimp only
  · unfold chatCase
    split
    · rename_i hq; rw [hq] at hp; simp at hp
    · rfl
  · unfold usernameCase
    split
    · rename_i hq; rw [hq] at hp; simp at hp
    · rfl
  · unfold adminCase
    split
    · rename_i hq; rw [hq] at hp; simp at hp
    · rfl
  · unfold listCase
    have hne : command.params.isEmpty = false := by
      cases hq : command.params with
      | nil => rw [hq] at hp; simp at hp
      | cons a t => rfl
    simp [hne]
  · unfold turnCase
    have hne : command.params.isEmpty = false := by
      cases hq : command.params with
      | nil => rw [hq] at hp; simp at hp
      | cons a t => rfl
    simp [hne]
  · unfold buttonCase
    split
    · rename_i hq; rw [hq] at hp; simp at hp
    · rfl
  · unfold addEmuCase
    split
    · rename_i hq; rw [hq] at hp; simp at hp
    · rfl

/-- Witness for C22: `alice` sends `chat` with two parameters. -/
theorem arity_violation_is_dropped_witness :
    dispatch exampleEnv exampleServer (exampleCommand .Chat ["hello", "there"] 1 "emu1")
      = .ok (exampleServer, []) :=
  arity_violation_is_dropped exampleEnv exampleServer
    (exampleCommand .Chat ["hello", "there"] 1 "emu1") (Or.inl ⟨Or.inl rfl, by decide⟩)

/-! ## Broadcast engine -/

theorem broadcastAll_eq_spec (data : String) (op : Opcode) :
    ∀ users : List UserEntry, BroadcastAll users data op = specBroadcastAll users data op
  | [] => rfl
  | e :: es => by
    have ih := broadcastAll_eq_spec data op es
    unfold BroadcastAll specBroadcastAll at ih ⊢
    by_cases h1 : e.user.username = ""
    · simp [List.filter_cons, List.filterMap_cons, h1, ih]
    · by_cases h2 : e.user.connected = true
      · by_cases h3 : e.expired = false
        · simp [List.filter_cons, List.filterMap_cons, h1, h2, h3, ih]
        · simp [List.filter_cons, List.filterMap_cons, h1, h2, h3, ih]
      · simp [List.filter_cons, List.filterMap_cons, h1, h2, ih]

theorem broadcastToEmu_eq_filter (id data : String) (op : Opcode) :
    ∀ users : List UserEntry,
      BroadcastToEmu users id data op =
        BroadcastAll (users.filter (fun e => decide (e.user.connectedEmu = id))) data op
  | [] => rfl
  | e :: es => by
    have ih := broadcastToEmu_eq_filter id data op es
    unfold BroadcastToEmu BroadcastAll at ih ⊢
    by_cases h0 : e.user.connectedEmu = id
    · by_cases h1 : e.user.username = ""
      · simp [List.filter_cons, h0, h1, ih]
      · by_cases h2 : e.user.connected = true
        · by_cases h3 : e.expired = false
          · simp [List.filter_cons, h0, h1, h2, h3, ih]
          · simp [List.filter_cons, h0, h1, h2, h3, ih]
        · simp [List.filter_cons, h0, h1, h2, ih]
    · simp [List.filter_cons, h0, ih]

theorem mem_broadcastAll {users : List UserEntry} {data : String} {op : Opcode} {ev : Event} :
    ev ∈ BroadcastAll users data op ↔
      ∃ e ∈ users, (e.user.username ≠ "" ∧ e.user.connected = true ∧ e.expired = false) ∧
        ev = Event.send (some e.hdl) data op := by
  unfold BroadcastAll
  simp only [List.mem_map, List.mem_filter, Bool.and_eq_true, bne_iff_ne, ne_eq,
    Bool.not_eq_true']
  constructor
  · rintro ⟨e, ⟨he, ⟨h1, h2⟩, h3⟩, rfl⟩
    exact ⟨e, he, ⟨h1, h2, h3⟩, rfl⟩
  · rintro ⟨e, he, ⟨h1, h2, h3⟩, rfl⟩
    exact ⟨e, ⟨he, ⟨h1, h2⟩, h3⟩, rfl⟩

/-- C23. Broadcast recipient sets. For every registry and payload, `BroadcastAll`
issues exactly the sends of the specification's `broadcast_all`: one frame, in
registry order, to each registered user with a non-empty username, the
`connected` flag set and a non-expired handle, whatever its session; and
`BroadcastToEmu(id, payload)` issues exactly those of `broadcast_session`: the
sends of `BroadcastAll` restricted to the users whose `connectedEmu` equals `id`.
Both are functions of the registry that return the frames sent: neither writes
the registry. -/
theorem broadcast_recipient_sets (users : List UserEntry) (id data : String) (op : Opcode) :
    BroadcastAll users data op = specBroadcastAll users data op ∧
    BroadcastToEmu users id data op = specBroadcastSession users id data op ∧
    (∀ ev, ev ∈ BroadcastAll users data op ↔
      ∃ e ∈ users, (e.user.username ≠ "" ∧ e.user.connected = true ∧ e.expired = false) ∧
        ev = Event.send (some e.hdl) data op) ∧
    (∀ ev, ev ∈ BroadcastToEmu users id data op ↔
      ∃ e ∈ users, (e.user.connectedEmu = id ∧ e.user.username ≠ "" ∧
          e.user.connected = true ∧ e.expired = false) ∧
        ev = Event.send (some e.hdl) data op) ∧
    (∀ ev, ev ∈ BroadcastToEmu users id data op → ev ∈ BroadcastAll users data op) := by
  refine ⟨broadcastAll_eq_spec data op users, ?_, fun ev => mem_broadcastAll,
    fun ev => mem_broadcastToEmu, ?_⟩
  · unfold specBroadcastSession
    rw [broadcastToEmu_eq_filter, broadcastAll_eq_spec]
  · intro ev hev
    obtain ⟨e, he, ⟨_, h1, h2, h3⟩, heq⟩ := mem_broadcastToEmu.mp hev
    exact mem_broadcastAll.mpr ⟨e, he, ⟨h1, h2, h3⟩, heq⟩

/-! ## Disconnect -/

theorem eraseP_eq_filter_of_nodup (k : Nat) :
    ∀ l : List UserEntry, (l.map (fun e => e.hdl)).Nodup →
      l.eraseP (fun e => e.hdl == k) = l.filter (fun e => e.hdl != k)
  | [], _ => rfl
  | e :: es, h => by
    rw [List.map_cons, List.nodup_cons] at h
    by_cases hk : e.hdl = k
    · have hall : ∀ x ∈ es, (x.hdl != k) = true := by
        intro x hx
        have : x.hdl ≠ e.hdl := fun hxe => h.1 (List.mem_map.mpr ⟨x, hx, hxe⟩)
        rw [hk] at this
        simpa using this
      simp [List.eraseP_cons, List.filter_cons, hk, List.filter_eq_self.mpr hall]
    · have hb : (e.hdl == k) = false := by simpa using hk
      rw [List.eraseP_cons, List.filter_cons]
      simp only [hb, Bool.false_eq_true, if_false, bne, Bool.not_false, if_true, cond_false]
      rw [eraseP_eq_filter_of_nodup k es h.2]
      rfl

theorem lock_none_iff {users : List UserEntry} {k : Nat} :
    lock users (some k) = none ↔ ∀ e ∈ users, e.hdl ≠ k := by
  induction users with
  | nil => simp [lock]
  | cons e es ih =>
    rw [lock_cons]
    by_cases hk : e.hdl = k
    · simp [hk]
    · simp [hk, ih]

/-- C24. Disconnect removes exactly one entry. For a registry with distinct keys
in which the session of the user under `h`, if it has one, is registered,
`OnDisconnect(h)` completes; afterwards the user registry has no entry for `h`,
every other entry is unchanged and in place, the session registry is unchanged,
and the whole state is unchanged when `h` was not registered. A
`userDisconnected` call on the session, followed by the `("leave", username)`
broadcast to the members of that session, happens if and only if `h` was
registered to a user with a non-empty `connectedEmu`; otherwise no frame is sent
and no session is called. -/
theorem disconnect_removes_one_entry (env : Env) (s : Server) (h : Nat)
    (hkeys : (s.m_Users.map (fun e => e.hdl)).Nodup)
    (hreg : ∀ user, lock s.m_Users (some h) = some user → user.connectedEmu ≠ "" →
      ∃ emu, s.m_Emus.lookup user.connectedEmu = some (some emu)) :
    ∃ s1 evs, OnDisconnect env s h = .ok (s1, evs) ∧
      lock s1.m_Users (some h) = none ∧
      s1.m_Users = s.m_Users.filter (fun e => e.hdl != h) ∧
      s1.m_Emus = s.m_Emus ∧
      (lock s.m_Users (some h) = none → s1 = s) ∧
      ((∃ user emu, lock s.m_Users (some h) = some user ∧ user.connectedEmu ≠ "" ∧
          s.m_Emus.lookup user.connectedEmu = some (some emu) ∧
          evs = [Event.userDisconnected emu (some h)]
            ++ BroadcastToEmu s.m_Users user.connectedEmu
                (env.encode [.str "leave", .str user.username]) Opcode.text
            ++ [Event.log [user.uuid, " (", user.username, ") left."]]) ∨
       ((¬ ∃ user, lock s.m_Users (some h) = some user ∧ user.connectedEmu ≠ "") ∧
          sends evs = [] ∧ ∀ emu u, Event.userDisconnected emu u ∉ evs)) := by
  have hfilter : lock (s.m_Users.filter (fun e => e.hdl != h)) (some h) = none := by
    rw [lock_none_iff]
    intro e he
    have := (List.mem_filter.mp he).2
    simpa using this
  unfold OnDisconnect
  cases hl : lock s.m_Users (some h) with
  | none =>
    refine ⟨s, _, rfl, hl, ?_, rfl, fun _ => rfl, Or.inr ⟨?_, by simp [sends], by simp⟩⟩
    · symm
      rw [List.filter_eq_self]
      intro e he
      simpa using lock_none_iff.mp hl e he
    · rintro ⟨user, hu, _⟩
      exact Option.noConfusion hu
  | some user =>
    by_cases hce : user.connectedEmu = ""
    · have hb : (user.connectedEmu != "") = false := by simpa using hce
      simp only [hb, Bool.false_eq_true, if_false]
      refine ⟨_, [], rfl, ?_, eraseP_eq_filter_of_nodup h _ hkeys, rfl,
        fun hn => Option.noConfusion hn, Or.inr ⟨?_, rfl, by simp⟩⟩
      · show lock (s.m_Users.eraseP (fun e => e.hdl == h)) (some h) = none
        rw [eraseP_eq_filter_of_nodup h _ hkeys]
        exact hfilter
      · rintro ⟨u, hu, hne⟩
        rw [Option.some.injEq] at hu
        exact hne (hu ▸ hce)
    · have hb : (user.connectedEmu != "") = true := by simpa using hce
      obtain ⟨emu, hemu⟩ := hreg user hl hce
      simp only [hb, if_true, emusIndex_of_lookup hemu]
      refine ⟨_, _, rfl, ?_, eraseP_eq_filter_of_nodup h _ hkeys, rfl,
        fun hn => Option.noConfusion hn, Or.inl ⟨user, emu, rfl, hce, hemu, rfl⟩⟩
      show lock (s.m_Users.eraseP (fun e => e.hdl == h)) (some h) = none
      rw [eraseP_eq_filter_of_nodup h _ hkeys]
      exact hfilter

/-- Witness for C24: `bob`, a member of `emu1`, disconnects. -/
theorem disconnect_removes_one_entry_witness :
    ∃ s1 evs, OnDisconnect exampleEnv exampleJoinedServer 2 = .ok (s1, evs) ∧
      lock s1.m_Users (some 2) = none ∧
      s1.m_Users = exampleJoinedServer.m_Users.filter (fun e => e.hdl != 2) ∧
      s1.m_Emus = exampleJoinedServer.m_Emus ∧
      (lock exampleJoinedServer.m_Users (some 2) = none → s1 = exampleJoinedServer) ∧
      ((∃ user emu, lock exampleJoinedServer.m_Users (some 2) = some user ∧
          user.connectedEmu ≠ "" ∧
          exampleJoinedServer.m_Emus.lookup user.connectedEmu = some (some emu) ∧
          evs = [Event.userDisconnected emu (some 2)]
            ++ BroadcastToEmu exampleJoinedServer.m_Users user.connectedEmu
                (exampleEnv.encode [.str "leave", .str user.username]) Opcode.text
            ++ [Event.log [user.uuid, " (", user.username, ") left."]]) ∨
       ((¬ ∃ user, lock exampleJoinedServer.m_Users (some 2) = some user ∧
            user.connectedEmu ≠ "") ∧
          sends evs = [] ∧ ∀ emu u, Event.userDisconnected emu u ∉ evs)) :=
  disconnect_removes_one_entry exampleEnv exampleJoinedServer 2 (by decide)
    (fun user hu _ => ⟨7, by
      have : user = exampleUser "uuid-b" "bob" "emu1" := by
        have h2 : lock exampleJoinedServer.m_Users (some 2)
            = some (exampleUser "uuid-b" "bob" "emu1") := rfl
        rw [h2] at hu
        exact (Option.some.inj hu).symm
      rw [this]
      rfl⟩)

/-! ## Guest assignment -/

theorem pickGuest_of_free_draw {users : List UserEntry} {uuid : String} :
    ∀ {rnd : List Nat}, (∃ r ∈ rnd, UsernameTaken users (guestName r) uuid = false) →
      ∃ r rest, pickGuest users uuid rnd = some (guestName r, rest)
  | [], h => by
    obtain ⟨r, hr, _⟩ := h
    exact absurd hr (List.not_mem_nil _)
  | r :: rs, h => by
    unfold pickGuest
    by_cases ht : UsernameTaken users (guestName r) uuid = true
    · rw [if_pos ht]
      apply pickGuest_of_free_draw
      obtain ⟨r1, hr1, hfree⟩ := h
      rcases List.mem_cons.mp hr1 with rfl | hmem
      · rw [ht] at hfree
        exact Bool.noConfusion hfree
      · exact ⟨r1, hmem, hfree⟩
    · rw [if_neg ht]
      exact ⟨r, rs, rfl⟩

theorem usernameTaken_modifyUser {k : Nat} {f : LetsPlayUser → LetsPlayUser} {u : LetsPlayUser}
    {n : String} (hf : ∀ v, (f v).uuid = v.uuid) :
    ∀ {l : List UserEntry}, lock l (some k) = some u →
      UsernameTaken (modifyUser k f l) n u.uuid = UsernameTaken l n u.uuid
  | [], _ => rfl
  | e :: es, h => by
    rw [lock_cons] at h
    by_cases hk : e.hdl = k
    · simp only [hk, if_true, Option.some.injEq] at h
      simp only [modifyUser, hk, if_true]
      unfold UsernameTaken
      simp [List.any_cons, hf, h]
    · simp only [hk, if_false] at h
      simp only [modifyUser, hk, if_false]
      have ih := usernameTaken_modifyUser (n := n) hf h
      unfold UsernameTaken at ih ⊢
      rw [List.any_cons, List.any_cons, ih]

theorem sameNameEvents_of_just_joined {env : Env} {command : Command} {user : LetsPlayUser}
    {n : String} (h : user.username = "") : sameNameEvents env command user n = [] := by
  unfold sameNameEvents
  simp [h]

theorem rejectUsername_just_joined {env : Env} {s : Server} {command : Command}
    {user : LetsPlayUser} {newName reason : String} {k : Nat}
    (hh : command.user_hdl = some k) (hu : lock s.m_Users (some k) = some user)
    (hjoin : user.username = "")
    (hdraw : ∃ r ∈ s.rnd, UsernameTaken s.m_Users (guestName r) user.uuid = false) :
    ∃ n s1 evs, n ≤ 99999 ∧
      rejectUsername env s command user newName reason = .ok (s1, evs) ∧
      lock s1.m_Users (some k) = some { user with username := "guest" ++ toString n } ∧
      UsernameTaken s.m_Users ("guest" ++ toString n) user.uuid = false ∧
      UsernameTaken s1.m_Users ("guest" ++ toString n) user.uuid = false ∧
      sends evs = [(command.hdl,
        env.encode [.str "username", .str "", .str ("guest" ++ toString n)])] := by
  obtain ⟨r, rest, hpick⟩ := pickGuest_of_free_draw hdraw
  have hfree := pickGuest_free hpick
  have hlt : r % 100000 ≤ 99999 := by omega
  have hout : rejectUsername env s command user newName reason = .ok
      ({ s with
          m_Users := (modifyUser k (fun u => { u with username := guestName r }) s.m_Users),
          rnd := rest },
       BroadcastOne (env.encode [.str "username", .str user.username, .str (guestName r)])
           command.hdl
         ++ [Event.log [user.uuid, " (", user.username, ") given new username '",
               guestName r, "'"]]) := by
    unfold rejectUsername GiveGuest
    simp only [hjoin, beq_self_eq_true, if_true, hh, hu, hpick,
      sameNameEvents_of_just_joined hjoin, List.nil_append]
    rfl
  refine ⟨r % 100000, _, _, hlt, hout, ?_, hfree, ?_, ?_⟩
  · exact lock_modifyUser hu
  · have hpost := usernameTaken_modifyUser (k := k)
      (f := fun u : LetsPlayUser => { u with username := guestName r })
      (n := guestName r) (fun _ => rfl) hu
    exact hpost.trans hfree
  · simp [sends, BroadcastOne, guestName, hjoin]

/-- C25. Guest assignment. For a Username command from a live user who has just
joined (empty username) whose `newName` fails the length check, or fails the
content check, or passes the content check and is taken, and random draws of
which one gives a name that is free (so that the loop of `GiveGuest` returns),
dispatch completes and the user's username is `"guest"` followed by the decimal
rendering of some `n <= 99999`; `UsernameTaken(that name, user.uuid)` is false in
the state the loop tested and in the state after the write; and the only frame
sent is the reply `("username", "", that name)` to the caller. -/
theorem guest_assignment (env : Env) (s : Server) (command : Command) (newName : String)
    (k : Nat) (user : LetsPlayUser)
    (hty : command.type = kCommandType.Username) (hp : command.params = [newName])
    (hh : command.user_hdl = some k) (hu : lock s.m_Users (some k) = some user)
    (hjoin : user.username = "")
    (hfail : (newName.length > maxUsernameLen env s ∨ newName.length < minUsernameLen env s) ∨
      contentRejected newName = .ok true ∨
      (contentRejected newName = .ok false ∧
        UsernameTaken s.m_Users newName user.uuid = true))
    (hdraw : ∃ r ∈ s.rnd, UsernameTaken s.m_Users (guestName r) user.uuid = false) :
    ∃ n s1 evs, n ≤ 99999 ∧
      dispatch env s command = .ok (s1, evs) ∧
      lock s1.m_Users (some k) = some { user with username := "guest" ++ toString n } ∧
      UsernameTaken s.m_Users ("guest" ++ toString n) user.uuid = false ∧
      UsernameTaken s1.m_Users ("guest" ++ toString n) user.uuid = false ∧
      sends evs = [(command.hdl,
        env.encode [.str "username", .str "", .str ("guest" ++ toString n)])] := by
  have hd : dispatch env s command = usernameCase env s command := by
    unfold dispatch
    rw [hty]
  rw [hd]
  unfold usernameCase
  simp only [hp, hh, hu]
  split
  · exact rejectUsername_just_joined hh hu hjoin hdraw
  · rename_i hlen
    simp only [Bool.or_eq_true, decide_eq_true_eq] at hlen
    rcases hfail with hl | hc | ⟨hc, ht⟩
    · exact absurd hl hlen
    · simp only [hc]
      exact rejectUsername_just_joined hh hu hjoin hdraw
    · simp only [hc, ht, if_true]
      exact rejectUsername_just_joined hh hu hjoin hdraw

/-- Witness for C25: the user who has just connected asks for `alice`, which is
taken; the first draw is 4242. -/
theorem guest_assignment_witness :
    ∃ n s1 evs, n ≤ 99999 ∧
      dispatch exampleEnv exampleServer (exampleCommand .Username ["alice"] 2 "")
        = .ok (s1, evs) ∧
      lock s1.m_Users (some 2)
        = some { exampleUser "uuid-b" "" "" with username := "guest" ++ toString n } ∧
      UsernameTaken exampleServer.m_Users ("guest" ++ toString n) "uuid-b" = false ∧
      UsernameTaken s1.m_Users ("guest" ++ toString n) "uuid-b" = false ∧
      sends evs = [(some 2,
        exampleEnv.encode [.str "username", .str "", .str ("guest" ++ toString n)])] :=
  guest_assignment exampleEnv exampleServer (exampleCommand .Username ["alice"] 2 "") "alice" 2
    (exampleUser "uuid-b" "" "") rfl rfl rfl rfl rfl
    (Or.inr (Or.inr ⟨rfl, by decide⟩)) ⟨4242, by decide, by decide⟩

/-! ## Shutdown -/

/-- C27. `escapeTilde`, with `HOME` as an optional string: for a non-empty path
`p`, the result is `p` unchanged when `p` does not begin with `~`; it is `h`
followed by `p` without its first character when `p` begins with `~` and `HOME`
is set to `h`; and it is `"."` when `p` begins with `~` and `HOME` is unset. -/
theorem escapeTilde_spec (home : Option String) (p : String) (hp : p ≠ "") :
    (p.data.head? ≠ some '~' → escapeTilde home p = .ok p) ∧
    (p.data.head? = some '~' → ∀ h, home = some h →
      escapeTilde home p = .ok (h ++ String.mk p.data.tail)) ∧
    (p.data.head? = some '~' → home = none → escapeTilde home p = .ok ".") := by
  unfold escapeTilde
  cases hd : p.data with
  | nil =>
    exfalso
    apply hp
    cases p
    simp only at hd
    rw [hd]
  | cons c rest =>
    by_cases hc : c = '~'
    · refine ⟨fun hne => absurd (by simp [hc]) hne, fun _ h hh => ?_, fun _ hh => ?_⟩
      · simp [hc, hh]
      · simp [hc, hh]
    · refine ⟨fun _ => by simp [hc], fun he => ?_, fun he => ?_⟩
      · simp at he; exact absurd he hc
      · simp at he; exact absurd he hc

/-- Witness for C27: the path `~/roms` with `HOME` set to `/home/lp`. -/
theorem escapeTilde_spec_witness :
    ("~/roms".data.head? ≠ some '~' → escapeTilde (some "/home/lp") "~/roms" = .ok "~/roms") ∧
    ("~/roms".data.head? = some '~' → ∀ h, some "/home/lp" = some h →
      escapeTilde (some "/home/lp") "~/roms" = .ok (h ++ String.mk "~/roms".data.tail)) ∧
    ("~/roms".data.head? = some '~' → some "/home/lp" = none →
      escapeTilde (some "/home/lp") "~/roms" = .ok ".") :=
  escapeTilde_spec (some "/home/lp") "~/roms" (by decide)

/-! ## The session registry under Turn, and the empty username -/

/-- C28 (the code at the failing input). `alice` is a member of `emu1`; her Turn
command carries the empty session snapshot taken before her Connect was
dispatched. The lookup `m_Emus[command.emuID]` inserts the key `""` with a null
pointer: the session registry has three keys after dispatch, two before. -/
theorem turn_inserts_a_session_key :
    exampleServer.m_Emus.map Prod.fst = ["emu1", "emu2"] ∧
    emuFound exampleServer.m_Emus "" = false ∧
    dispatch exampleEnv exampleServer (exampleCommand .Turn [] 1 "") =
      .ok ({ exampleServer with m_Emus := [("emu1", some 7), ("emu2", some 8), ("", none)] },
        [Event.log ["uuid-a", " (", "alice", ") requested a turn.user->requestedTurn: ", "0",
           " user->connectedEmu: ", "emu1"]]) ∧
    emuFound [("emu1", some 7), ("emu2", some 8), ("", none)] "" = true := by
  exact ⟨rfl, rfl, rfl, rfl⟩

/-- C29 (the code at the failing input). Under a configuration with
`minUsernameLength = 0` the empty name passes the length check (`0 > 16` and
`0 < 0` are both false), so the content check is reached and evaluates
`newUsername.front()` on the empty string. -/
theorem empty_username_reaches_content_check :
    minUsernameLen exampleEnv exampleZeroMinServer = 0 ∧
    dispatch exampleEnv exampleZeroMinServer (exampleCommand .Username [""] 2 "") =
      .error Fault.frontOfEmptyString := by
  exact ⟨rfl, rfl⟩

end LetsPlay
